import Mathlib

/-!
Verification of `automl-translation-tools` (GoogleCloudPlatform), a tool that
parses, converts, counts and auto-splits parallel-sentence corpora stored in
TSV and TMX formats.  The development shallowly embeds the Python sources
`automl/autosplit.py` and `automl/parser_util.py`:

* pure helpers become Lean functions;
* the stateful parsers become explicit state passing over `List Char` streams;
* `random.randint` draws become explicit draw lists quantified universally;
* Python exceptions become `Except` results;
* Python floats are modelled exactly: the literals `0.8` and `0.9` denote the
  IEEE-754 binary64 values `3602879701896397 / 2^52` and
  `8106479329266893 / 2^53` (the representable values nearest to the decimal
  fractions), and every float operation rounds its exact result to 53
  significant bits with round-to-nearest, ties-to-even (`flround`).  All
  quantities are kept as scaled integers, so the model is executable and its
  results coincide with CPython's float arithmetic on the whole input range
  below the overflow threshold.  Note the exact-rational reading
  `ceil(0.9*N - train)` differs from the program: at
  `N = 2830804722841159` the float computation yields one less.
-/

namespace AutomlTranslation

/-! ## `automl/autosplit.py` -/

/-- `MLUse` enum from `autosplit.py`: possible ML use cases.  `UNASSIGNED`
is a sentinel that must never be produced by the assignment algorithm. -/
inductive MLUse where
  | UNASSIGNED
  | TRAIN
  | VALIDATION
  | TEST
deriving DecidableEq, Repr

/-- The quota dictionary `Dict[MLUse, int]` restricted to the three keys it
actually holds (`TRAIN`, `VALIDATION`, `TEST`).  Values are Python ints,
modelled by `ℤ`. -/
structure SplitCounts where
  train : ℤ
  validation : ℤ
  test : ℤ
deriving DecidableEq, Repr

/-- `sum(self._example_counts.values())`. -/
def SplitCounts.total (c : SplitCounts) : ℤ :=
  c.train + c.validation + c.test

/-- Quota of one class, i.e. `self._example_counts[ml_use_value]` for the
three real keys; the dictionary has no `UNASSIGNED` key, and the model
returns `0` there (that lookup never happens in verified runs). -/
def SplitCounts.get (c : SplitCounts) : MLUse → ℤ
  | .UNASSIGNED => 0
  | .TRAIN => c.train
  | .VALIDATION => c.validation
  | .TEST => c.test

/-- Round `a / b` to the nearest integer, ties to even (the IEEE-754 default
rounding used by CPython's float arithmetic), for `b > 0`. -/
def roundNEnat (a b : ℕ) : ℕ :=
  if 2 * (a % b) < b then a / b
  else if b < 2 * (a % b) then a / b + 1
  else if (a / b) % 2 = 0 then a / b else a / b + 1

/-- Fuel-driven binary-digit counter (structural recursion so that concrete
instances evaluate inside the kernel). -/
def bitsGo : ℕ → ℕ → ℕ
  | 0, _ => 0
  | fuel + 1, n => if n < 2 then n else bitsGo fuel (n / 2) + 1

/-- Number of binary digits of `n` (`0` for `0`); for `n ≥ 1` it is
`⌊log2 n⌋ + 1`. -/
def natBits (n : ℕ) : ℕ := bitsGo n n

/-- Round a non-negative integer significand to 53 significant bits with
round-to-nearest, ties-to-even.  Scaling by a power of two does not change a
number's significand, so `flround p / 2^k` is exactly the binary64 rounding
of the real number `p / 2^k` (for any scale `k`, barring overflow, which the
model does not represent). -/
def flround (p : ℕ) : ℕ :=
  let sh := natBits p - 53
  roundNEnat p (2 ^ sh) * 2 ^ sh

/-- `flround` extended to signed scaled significands (binary64 rounding is
symmetric around zero). -/
def flroundZ (z : ℤ) : ℤ := z.sign * flround z.natAbs

/-- `int(math.ceil(x))` for a float `x` held as the scaled significand
`a / 2^k`: the exact ceiling (for the values arising here `math.ceil`'s
float result represents the ceiling exactly). -/
def ceilPow2 (a : ℤ) (k : ℕ) : ℤ := -((-a).fdiv (2 ^ k))

/-- The binary64 value of the source literal `0.8` is `M8 / 2^52`. -/
def M8 : ℕ := 3602879701896397

/-- The binary64 value of the source literal `0.9` is `M9 / 2^53`. -/
def M9 : ℕ := 8106479329266893

/-- `_autosplit_example_count(total_example_count)` from `autosplit.py`:
`train = int(math.ceil(total * 0.8))`,
`validation = int(math.ceil(total * 0.9 - train))`,
`test = total - validation - train`, with the float arithmetic modelled
exactly: the int is converted to float (`flround`), each multiplication and
the subtraction round their exact result to 53 significant bits, and the
scaled significands are kept as integers (`a8 / 2^52` is the float
`total * 0.8`, `a9 / 2^53` is `total * 0.9`, `diff / 2^53` is
`total * 0.9 - train`). -/
def autosplit_example_count (total_example_count : ℕ) : SplitCounts :=
  let nf : ℕ := flround total_example_count
  let a8 : ℕ := flround (nf * M8)
  let train : ℤ := ceilPow2 (a8 : ℤ) 52
  let a9 : ℕ := flround (nf * M9)
  let diff : ℤ := flroundZ ((a9 : ℤ) - (flround train.toNat : ℤ) * 2 ^ 53)
  let validation : ℤ := ceilPow2 diff 53
  let test : ℤ := (total_example_count : ℤ) - validation - train
  ⟨train, validation, test⟩

/-- The loop body of `AutoSplitUtil._assign_ml_use`: walk `_ML_USES` in the
fixed order `TRAIN, VALIDATION, TEST`; return the first class whose remaining
count exceeds the (decreasing) drawn index, else fall through.  The fall
through (`return MLUse.TRAIN` in the source) is modelled by `none` so that
its unreachability can be stated; `assign_ml_use` restores the fallback. -/
def assign_loop (i : ℤ) (c : SplitCounts) : Option MLUse :=
  if i < c.train then some .TRAIN
  else if i - c.train < c.validation then some .VALIDATION
  else if i - c.train - c.validation < c.test then some .TEST
  else none

/-- `AutoSplitUtil._assign_ml_use`, given the outcome `i` of
`random.randint(0, sum(example_counts.values()) - 1)` (the stray discarded
expression `int(random.random() * sum(...))` on the next source line has no
effect and is not modelled). -/
def assign_ml_use (i : ℤ) (c : SplitCounts) : MLUse :=
  (assign_loop i c).getD .TRAIN

/-- `AutoSplitUtil._select_ml_use`: decrement the chosen class's remaining
count.  The real dictionary holds no `UNASSIGNED` key (that lookup would
raise `KeyError`); the model leaves the counts unchanged there, and the
verified runs never reach that case. -/
def select_ml_use (c : SplitCounts) : MLUse → SplitCounts
  | .UNASSIGNED => c
  | .TRAIN => { c with train := c.train - 1 }
  | .VALIDATION => { c with validation := c.validation - 1 }
  | .TEST => { c with test := c.test - 1 }

/-- Tally of the pairs fed to each of the three exporters during
`AutoSplitUtil.autosplit`. -/
structure FedCounts where
  train : ℕ
  validation : ℕ
  test : ℕ
deriving DecidableEq, Repr

/-- One `feed_parallel_phrase_pair` call on the chosen exporter. -/
def FedCounts.bump (f : FedCounts) : MLUse → FedCounts
  | .UNASSIGNED => f
  | .TRAIN => { f with train := f.train + 1 }
  | .VALIDATION => { f with validation := f.validation + 1 }
  | .TEST => { f with test := f.test + 1 }

/-- Per-class projection of the fed tally (`UNASSIGNED` has no exporter). -/
def FedCounts.get (f : FedCounts) : MLUse → ℕ
  | .UNASSIGNED => 0
  | .TRAIN => f.train
  | .VALIDATION => f.validation
  | .TEST => f.test

/-- State of one `autosplit` run: the mutable quota dictionary together with
the number of pairs fed to each exporter so far. -/
structure SplitRunState where
  counts : SplitCounts
  fed : FedCounts
deriving DecidableEq, Repr

/-- The body of the `for src_text, dst_text in parser` loop in
`AutoSplitUtil.autosplit`, for one incoming pair, given the outcome `i` of
the random draw: assign a class, feed the pair to that class's exporter,
then decrement that class's count. -/
def autosplit_step (st : SplitRunState) (i : ℤ) : SplitRunState :=
  let u := assign_ml_use i st.counts
  { counts := select_ml_use st.counts u, fed := st.fed.bump u }

/-- `AutoSplitUtil.autosplit` over an explicit list of random-draw
outcomes, one per incoming pair. -/
def autosplit_run (st : SplitRunState) (draws : List ℤ) : SplitRunState :=
  draws.foldl autosplit_step st

/-- Validity of a draw list: `random.randint(0, R - 1)` returns an integer
in `[0, R)` where `R` is the current quota sum (and requires `R ≥ 1`). -/
def valid_draws (st : SplitRunState) : List ℤ → Bool
  | [] => true
  | i :: is =>
    (decide (0 ≤ i) && decide (i < st.counts.total)) &&
      valid_draws (autosplit_step st i) is

/-- `AutoSplitUtil.__init__` with `total_size = N`: quotas from
`_autosplit_example_count`, nothing fed yet. -/
def autosplit_init (N : ℕ) : SplitRunState :=
  ⟨autosplit_example_count N, ⟨0, 0, 0⟩⟩

/-! ## `automl/parser_util.py`: shared helpers -/

/-- `ParallelPhraseParser._SENTENCE_BUFFER_SIZE`. -/
def SENTENCE_BUFFER_SIZE : ℕ := 1024 * 1024

/-- `ParallelPhraseParser._MAX_SKIPPED_PHRASES`. -/
def MAX_SKIPPED_PHRASES : ℕ := 1024

/-- `TmxParser._TU_BUF_SIZE` (memory-pruning threshold; the pruning has no
observable effect on parsed output and is not otherwise modelled). -/
def TU_BUF_SIZE : ℕ := 1024

/-- Python `str.split(sep)` for a one-character separator, over decoded
character lists: splits at every occurrence, keeping empty fields. -/
def splitOnChar (sep : Char) : List Char → List (List Char)
  | [] => [[]]
  | c :: cs =>
    match splitOnChar sep cs with
    | [] => [[]]
    | f :: rest => if c = sep then [] :: f :: rest else (c :: f) :: rest

/-- Python `str.rstrip(ch)` for a one-character argument: remove every
trailing occurrence of `ch`. -/
def rstripChar (ch : Char) (l : List Char) : List Char :=
  (l.reverse.dropWhile (fun c => c == ch)).reverse

/-- Python `str.endswith(ch)` for one character. -/
def endsWithChar (l : List Char) (ch : Char) : Bool :=
  l.getLast? == some ch

/-- Python `line.endswith('\n\r')` (the last two characters are `'\n'`
then `'\r'`; unreachable for chunks produced by `readline`, kept for
faithfulness). -/
def endsWithNLCR (l : List Char) : Bool :=
  match l.reverse with
  | c1 :: c2 :: _ => c1 == '\r' && c2 == '\n'
  | _ => false

/-- `_parse_locale(lang_code)`: `lang_code.lower().split('-')[0]`.  Python's
Unicode lower-casing is modelled by per-character ASCII lower-casing, which
coincides with it on BCP-47 language tags. -/
def _parse_locale (lang_code : String) : String :=
  ⟨(splitOnChar '-' (lang_code.data.map Char.toLower)).headD []⟩

/-- `_is_same_language(locale1, locale2)`. -/
def _is_same_language (locale1 locale2 : String) : Bool :=
  locale1 == locale2

/-- `InvalidFileFormatError`: file type, optional 1-based line number, and
message. -/
structure InvalidFileFormatError where
  file_type : String
  line_index : Option ℕ
  message : String
deriving DecidableEq, Repr

/-- The formatted message built in `InvalidFileFormatError.__init__` and
returned by `__str__`. -/
def InvalidFileFormatError.str (e : InvalidFileFormatError) : String :=
  match e.line_index with
  | some n =>
    "Invalid " ++ e.file_type ++ " file at line " ++ toString n ++ ": " ++
      e.message
  | none => "Invalid " ++ e.file_type ++ " file: " ++ e.message

/-- `_skip_invalid_tmx_data()`: the skip-tolerance switch, hard-coded off. -/
def _skip_invalid_tmx_data : Bool := false

/-! ## `TmxParser`: structural verification and content extraction -/

/-- `TmxParser._PARENT_TAG_NAME`: required parent of each recognized tag;
`none` for unrecognized tags (which are skipped by `_verify_element`). -/
def _PARENT_TAG_NAME (tag : String) : Option String :=
  if tag = "tmx" then some ""
  else if tag = "header" then some "tmx"
  else if tag = "body" then some "tmx"
  else if tag = "tu" then some "body"
  else if tag = "tuv" then some "tu"
  else if tag = "seg" then some "tuv"
  else none

/-- Mutable part of `TmxParser` used by `_verify_element`: the stack of open
recognized tags and the header/body-seen flags.  The Python list grows at
its end (`[-1]` is the top); the model keeps the top at the head. -/
structure TmxVerifyState where
  tag_name_stack : List String
  header_inited : Bool
  body_inited : Bool
deriving DecidableEq, Repr

/-- `TmxParser.__init__` part of the verification state: stack `['']`,
neither header nor body seen. -/
def initTmxVerifyState : TmxVerifyState := ⟨[""], false, false⟩

/-- `TmxParser._verify_element(action, tag)`: structural validation of one
`start`/`end` event.  Errors carry the raw message; the caller attaches the
file type and current line number (`invalid_format_error`).  Note the
source sets `self._header_inited = True` on a header start but never
assigns `self._body_inited` after initializing it to `False`
(parser_util.py line 304), so on the success path `body_inited` is left
unchanged and the `Duplicate body tag.` branch is dead code. -/
def _verify_element (st : TmxVerifyState) (action : String) (tag : String) :
    Except String TmxVerifyState :=
  match _PARENT_TAG_NAME tag with
  | none => .ok st
  | some parent =>
    if action = "start" then
      if st.tag_name_stack.headD "" ≠ parent then
        .error ("Invalid tag structure: <" ++ tag ++ "> should go inside <" ++
          parent ++ ">, not <" ++ st.tag_name_stack.headD "" ++ ">.")
      else if tag == "header" && st.header_inited then
        .error "Duplicate header tag."
      else if tag == "body" && st.body_inited then
        .error "Duplicate body tag."
      else if tag == "body" && !st.header_inited then
        .error "header should before body."
      else
        .ok { tag_name_stack := tag :: st.tag_name_stack,
              header_inited := st.header_inited || (tag == "header"),
              body_inited := st.body_inited }
    else if action = "end" then
      if st.tag_name_stack.headD "" ≠ tag then
        .error ("Unclosed tag " ++ st.tag_name_stack.headD "" ++ ".")
      else
        .ok { st with tag_name_stack := st.tag_name_stack.tail }
    else .ok st

/-- A `<tuv>`-candidate child of a `<tu>` element as `lxml` presents it:
its tag, its `xml:lang` attribute (`none` when absent), and the list of
text fragments `itertext()` yields. -/
structure TuvChild where
  tag : String
  xml_lang : Option String
  itertext : List String
deriving DecidableEq, Repr

/-- Python `str.strip()`: drop leading and trailing whitespace (modelled
over the character list so that it computes by structural recursion). -/
def str_strip (s : String) : String :=
  ⟨((s.data.dropWhile Char.isWhitespace).reverse.dropWhile
      Char.isWhitespace).reverse⟩

/-- `TmxParser._parse_tuv_element`: the locale-truncated language (Python
truthiness: an absent or empty `xml:lang` stays untouched, and
`_parse_locale ''` is `''` anyway, so mapping is faithful) and the
space-joined, stripped text. -/
def _parse_tuv_element (child : TuvChild) : String × Option String :=
  let lang := child.xml_lang.map _parse_locale
  let tuv_text :=
    String.intercalate " " ((child.itertext.map str_strip).filter (· ≠ ""))
  (str_strip tuv_text, lang)

/-- Python truthiness of the optional strings `src`/`dst` in
`_parse_tu_element` (`not src`): `None` and `''` are falsy. -/
def str_falsy : Option String → Bool
  | none => true
  | some s => s == ""

/-- The `for child_element in tu_element.getchildren()` loop of
`_parse_tu_element`: accumulate the source/target texts. -/
def tu_scan (src_lang dst_lang : String) :
    Option String × Option String → List TuvChild →
      Option String × Option String
  | acc, [] => acc
  | acc, child :: rest =>
    let acc :=
      if child.tag ≠ "tuv" then acc
      else
        let (text, lang) := _parse_tuv_element child
        if text == "" then acc
        else
          match lang with
          | none => acc
          | some l =>
            if l == "" then acc
            else if _is_same_language l src_lang then (some text, acc.2)
            else if _is_same_language l dst_lang then (acc.1, some text)
            else acc
    tu_scan src_lang dst_lang acc rest

/-- `TmxParser._parse_tu_element`: returns `(src, dst, error_message)`. -/
def _parse_tu_element (src_lang dst_lang : String) (children : List TuvChild) :
    Option String × Option String × Option String :=
  let (src, dst) := tu_scan src_lang dst_lang (none, none) children
  if str_falsy src && str_falsy dst then
    (src, dst,
      some "No sentence found in source and target languages in this <tu>")
  else if str_falsy src then
    (src, dst, some "No sentence found in source language in this <tu>")
  else if str_falsy dst then
    (src, dst, some "No sentence found in target language in this <tu>")
  else (src, dst, none)

/-- `TmxParser._parse_header_element`: check the `srclang` attribute
against the configured source language (`self._src_lang`, already a
locale).  An absent or empty `srclang` is falsy and returns without any
check. -/
def _parse_header_element (src_lang : String) (srclang : Option String) :
    Except String Unit :=
  match srclang with
  | none => .ok ()
  | some s =>
    if s == "" then .ok ()
    else
      let src_locale := _parse_locale s
      if _is_same_language src_locale src_lang then .ok ()
      else
        .error ("Language in header doesn\x27t match language declared. " ++
          "Expecting " ++ src_lang ++ ", found " ++ src_locale)

/-- `TmxParser._skip_phrase_or_fail_parsing` (the tolerant path, reachable
only when `_skip_invalid_tmx_data()` is true). -/
def _skip_phrase_or_fail_parsing (current_line_number : ℕ)
    (skipped : List (ℕ × Option String × Option String × String))
    (src dst : Option String) (msg : String) :
    Except String (List (ℕ × Option String × Option String × String)) :=
  if skipped.length < MAX_SKIPPED_PHRASES then
    .ok (skipped ++ [(current_line_number, src, dst, msg)])
  else
    .error ("Too many sentence pair errors(" ++ toString skipped.length ++
      ") so far. The TMX may be broken.")

/-- One `start`/`end` event as produced by `lxml`'s pull parser, carrying
the element data the `end` handlers read: the `srclang` attribute (used
when the tag is `header`) and the children (used when the tag is `tu`). -/
inductive TmxEvent where
  | start (tag : String)
  | stop (tag : String) (srclang : Option String) (children : List TuvChild)
deriving DecidableEq, Repr

/-- Running state of `TmxParser`: verification state, `readline` line
bookkeeping, the skipped-records list, and all parallel phrase pairs
produced so far (the source buffers them per `_read_next` batch and hands
them out one by one; the model accumulates them in order). -/
structure TmxRunState where
  verify : TmxVerifyState
  line_index : ℕ
  next_read_line_index : ℕ
  skipped_phrases : List (ℕ × Option String × Option String × String)
  pairs : List (String × String)
deriving DecidableEq, Repr

/-- `TmxParser.__init__` state. -/
def initTmxRunState : TmxRunState := ⟨initTmxVerifyState, 0, 0, [], []⟩

/-- `self.invalid_format_error(message)` inside `TmxParser`:
`current_line_number` is `_line_index + 1`. -/
def tmx_invalid (st : TmxRunState) (msg : String) : InvalidFileFormatError :=
  ⟨"TMX", some (st.line_index + 1), msg⟩

/-- The body of `for action, element in self._events` in
`TmxParser._read_next`: verify the event, then run the `end` handlers for
`header` and `tu`.  With `_skip_invalid_tmx_data()` hard-coded false, a
`tu`-level error raises immediately.  (When a pair is produced the two
texts are provably non-falsy, so `getD ""` never fires.) -/
def tmxProcessEvent (src_lang dst_lang : String) (st : TmxRunState) :
    TmxEvent → Except InvalidFileFormatError TmxRunState
  | .start tag =>
    match _verify_element st.verify "start" tag with
    | .error m => .error (tmx_invalid st m)
    | .ok v => .ok { st with verify := v }
  | .stop tag srclang children =>
    match _verify_element st.verify "end" tag with
    | .error m => .error (tmx_invalid st m)
    | .ok v =>
      let st := { st with verify := v }
      if tag == "header" then
        match _parse_header_element src_lang srclang with
        | .error m => .error (tmx_invalid st m)
        | .ok _ => .ok st
      else if tag == "tu" then
        match _parse_tu_element src_lang dst_lang children with
        | (src, dst, none) =>
          .ok { st with pairs := st.pairs ++ [(src.getD "", dst.getD "")] }
        | (src, dst, some m) =>
          if _skip_invalid_tmx_data then
            match _skip_phrase_or_fail_parsing (st.line_index + 1)
                st.skipped_phrases src dst m with
            | .ok sk => .ok { st with skipped_phrases := sk }
            | .error m2 => .error (tmx_invalid st m2)
          else .error (tmx_invalid st m)
      else .ok st

/-- One iteration of the `while True` loop of `TmxParser._read_next` for a
non-empty chunk returned by `readline(stream, rstrip=False)`: line
bookkeeping exactly as in `readline` (with `check_sentence_buffer` false),
then all the `start`/`end` events `lxml` emits after being fed this chunk,
in order. -/
def tmxFeedChunk (src_lang dst_lang : String) (st : TmxRunState)
    (chunk : List Char) (events : List TmxEvent) :
    Except InvalidFileFormatError TmxRunState :=
  let st := { st with line_index := st.next_read_line_index }
  let st :=
    if endsWithChar chunk '\n' || endsWithNLCR chunk then
      { st with next_read_line_index := st.next_read_line_index + 1 }
    else st
  events.foldlM (tmxProcessEvent src_lang dst_lang) st

/-- Feeding a whole stream, chunk by chunk, through
`TmxParser._read_next`. -/
def tmxFeedChunks (src_lang dst_lang : String) (st : TmxRunState) :
    List (List Char × List TmxEvent) →
      Except InvalidFileFormatError TmxRunState
  | [] => .ok st
  | (chunk, events) :: rest => do
    let st' ← tmxFeedChunk src_lang dst_lang st chunk events
    tmxFeedChunks src_lang dst_lang st' rest

/-! ## Byte-level reading: `ParallelPhraseParser.readline` and `TsvParser` -/

/-- Python `stream.readline(size)` over a remaining-characters list:
return up to `size` characters, stopping right after the first `'\n'`,
together with the rest of the stream. -/
def streamReadlineGo : ℕ → List Char → List Char × List Char
  | 0, rest => ([], rest)
  | _ + 1, [] => ([], [])
  | n + 1, c :: cs =>
    if c = '\n' then ([c], cs)
    else
      let (l, r) := streamReadlineGo n cs
      (c :: l, r)

/-- `stream.readline(self._SENTENCE_BUFFER_SIZE)`. -/
def streamReadline (stream : List Char) (size : ℕ) : List Char × List Char :=
  streamReadlineGo size stream

/-- The line bookkeeping of `ParallelPhraseParser`: `_line_index` and
`_next_read_line_index`. -/
structure LineState where
  line_index : ℕ
  next_read_line_index : ℕ
deriving DecidableEq, Repr

/-- The two exceptions `readline` can raise: `ParseFinished` at end of
stream and `InvalidFileFormatError`. -/
inductive ReadExc where
  | finished
  | invalid (e : InvalidFileFormatError)
deriving DecidableEq, Repr

/-- `ParallelPhraseParser.readline(stream, check_sentence_buffer, rstrip)`:
set `_line_index`, read a bounded chunk, raise `ParseFinished` on an empty
read; if the chunk carries a line terminator, advance
`_next_read_line_index` and (only there, and only when
`check_sentence_buffer`) raise the buffer-limit error for a chunk of
exactly `_SENTENCE_BUFFER_SIZE` characters; optionally
`rstrip('\n').rstrip('\r').rstrip('\n')` the chunk. -/
def readline (file_format : String) (st : LineState) (stream : List Char)
    (check_sentence_buffer rstrip : Bool) :
    Except ReadExc (List Char × LineState × List Char) :=
  let st1 : LineState := ⟨st.next_read_line_index, st.next_read_line_index⟩
  let (line, rest) := streamReadline stream SENTENCE_BUFFER_SIZE
  if line = [] then .error .finished
  else
    let terminated := endsWithChar line '\n' || endsWithNLCR line
    let st2 : LineState :=
      if terminated then
        { st1 with next_read_line_index := st1.next_read_line_index + 1 }
      else st1
    if terminated && (check_sentence_buffer && (line.length == SENTENCE_BUFFER_SIZE)) then
      .error (.invalid ⟨file_format, some (st2.line_index + 1),
        "Length of the line exceeds the " ++ toString SENTENCE_BUFFER_SIZE ++
          " characters limit."⟩)
    else
      let line :=
        if rstrip then rstripChar '\n' (rstripChar '\r' (rstripChar '\n' line))
        else line
      .ok (line, st2, rest)

/-- `TsvParser.next_parallel_phrase_pair`: read one line with the buffer
check, split on tabs, demand exactly two fields. -/
def tsv_next_parallel_phrase_pair (st : LineState) (stream : List Char) :
    Except ReadExc ((List Char × List Char) × LineState × List Char) :=
  match readline "TSV" st stream true true with
  | .error e => .error e
  | .ok (line, st', rest) =>
    match splitOnChar '\t' line with
    | [a, b] => .ok ((a, b), st', rest)
    | _ =>
      .error (.invalid ⟨"TSV", some (st'.line_index + 1),
        "Each line can only contains 2 phrases."⟩)

/-- `TsvExporter.feed_parallel_phrase_pair`: writes
`''.join([src, '\t', dst, '\n'])`. -/
def tsv_feed_line (src dst : List Char) : List Char :=
  src ++ '\t' :: dst ++ ['\n']

/-- Output of a whole `TsvExporter` run over a pair sequence (`initialize`
and `finalize` write nothing for TSV). -/
def tsvExportStream (pairs : List (List Char × List Char)) : List Char :=
  (pairs.map fun p => tsv_feed_line p.1 p.2).flatten

/-- Driving `TsvParser` to exhaustion (`list(parser)`), fuel-bounded; each
yielded pair consumes at least one character, so any fuel above the stream
length never runs out. -/
def tsvParseAllGo (fuel : ℕ) (st : LineState) (stream : List Char)
    (acc : List (List Char × List Char)) :
    Except InvalidFileFormatError (List (List Char × List Char)) :=
  match fuel with
  | 0 => .error ⟨"TSV", none, "out of fuel"⟩
  | fuel + 1 =>
    match tsv_next_parallel_phrase_pair st stream with
    | .error .finished => .ok acc
    | .error (.invalid e) => .error e
    | .ok (pair, st', rest) => tsvParseAllGo fuel st' rest (acc ++ [pair])

/-- `list(TsvParser(...))` from the initial parser state. -/
def tsvParseAll (stream : List Char) :
    Except InvalidFileFormatError (List (List Char × List Char)) :=
  tsvParseAllGo (stream.length + 1) ⟨0, 0⟩ stream []

/-- The C5 probe stream: a single logical line (its only `'\n'` is the
final character) of `SENTENCE_BUFFER_SIZE + 3` characters of content,
containing one tab near the front. -/
def c5_stream : List Char :=
  'x' :: '\t' :: 'y' :: (List.replicate SENTENCE_BUFFER_SIZE 'z' ++ ['\n'])

/-! ## `TmxExporter` -/

/-- `TmxExporter._TMX_INIT_TMPL.format(self._src_lang_code)`: the exact
bytes `initialize` writes (the header attributes each sit on their own
line, indented by eight spaces, as in the source template). -/
def TMX_INIT_TMPL (src_lang_code : String) : String :=
  "<?xml version=\"1.0\" encoding=\"UTF-8\" ?>\n<tmx version=\"1.4\">\n" ++
    "<header srclang=\"" ++ src_lang_code ++
    "\"\n        adminlang=\"en-us\"\n        o-tmf=\"unknown\"\n" ++
    "        segtype=\"sentence\"\n        creationtool=\"Uplug\"\n" ++
    "        creationtoolversion=\"unknown\"\n        datatype=\"PlainText\" />\n" ++
    "  <body>\n"

/-- `TmxExporter._TMX_PAIR_TMPL.format(src_code, src, dst_code, dst)`: the
exact bytes one `feed_parallel_phrase_pair` call writes — `xml:lang` takes
the original constructor-supplied codes and the `<seg>` contents are the
raw texts, with no XML-escaping. -/
def TMX_PAIR_TMPL (src_lang_code src dst_lang_code dst : String) : String :=
  "    <tu>\n      <tuv xml:lang=\"" ++ src_lang_code ++ "\"><seg>" ++ src ++
    "</seg></tuv>\n      <tuv xml:lang=\"" ++ dst_lang_code ++ "\"><seg>" ++
    dst ++ "</seg></tuv>\n    </tu>\n"

/-- The bytes `TmxExporter.finalize` writes. -/
def TMX_FOOTER : String := "  </body>\n</tmx>"

/-- Total output of a `TmxExporter` run over a pair sequence. -/
def tmxExporterOutput (src_lang_code dst_lang_code : String)
    (pairs : List (String × String)) : String :=
  TMX_INIT_TMPL src_lang_code ++
    String.join (pairs.map fun p =>
      TMX_PAIR_TMPL src_lang_code p.1 dst_lang_code p.2) ++
    TMX_FOOTER

/-- Rendering of the section-6 wire format of the specification, whose
header element sits on a single line with single spaces between
attributes (the byte-exact expectation C9 states). -/
def tmxInitSpecSection6 (src_lang_code : String) : String :=
  "<?xml version=\"1.0\" encoding=\"UTF-8\" ?>\n<tmx version=\"1.4\">\n" ++
    "<header srclang=\"" ++ src_lang_code ++
    "\" adminlang=\"en-us\" o-tmf=\"unknown\" segtype=\"sentence\"" ++
    " creationtool=\"Uplug\" creationtoolversion=\"unknown\"" ++
    " datatype=\"PlainText\" />\n  <body>\n"

/-! ## Round trip: the exporter's TMX output as `readline` chunks -/

/-- The `<tuv>` element of the exported `<tuv xml:lang="code"><seg>text
</seg></tuv>` block: `itertext` yields the single `seg` text node (absent
when the text is empty). -/
def exportTuv (lang text : String) : TuvChild :=
  ⟨"tuv", some lang, if text = "" then [] else [text]⟩

/-- The `while True` loop of `TmxParser._read_next`, continued over the
calls `list(parser)` makes, over the stream's `readline` chunks: feed a
chunk and process its events; if the batch buffer holds new pairs,
`_read_next` returns (the caller hands the pairs out and the next call
starts with `buff_total_size = 0`); otherwise accumulate
`buff_total_size += len(buff)` and fail once it exceeds
`_SENTENCE_BUFFER_SIZE`; an empty read raises `ParseFinished`, ending the
iteration. -/
def tmxDriveChunks (sl dl : String) :
    TmxRunState → ℕ → List (List Char × List TmxEvent) →
      Except InvalidFileFormatError TmxRunState
  | st, _, [] => .ok st
  | st, acc, (chunk, events) :: rest =>
    match tmxFeedChunk sl dl st chunk events with
    | .error e => .error e
    | .ok st' =>
      if st.pairs.length < st'.pairs.length then
        tmxDriveChunks sl dl st' 0 rest
      else if SENTENCE_BUFFER_SIZE < acc + chunk.length then
        .error (tmx_invalid st' ("Exceeded buffer limit " ++
          toString SENTENCE_BUFFER_SIZE ++ "."))
      else tmxDriveChunks sl dl st' (acc + chunk.length) rest

/-- `list(TmxParser(src_code, dst_code, stream))` over the stream's
line-chunk decomposition: every parsed pair, in order. -/
def tmxParseChunks (src_lang_code dst_lang_code : String)
    (chunks : List (List Char × List TmxEvent)) :
    Except InvalidFileFormatError (List (String × String)) :=
  (tmxDriveChunks (_parse_locale src_lang_code) (_parse_locale dst_lang_code)
    initTmxRunState 0 chunks).map (·.pairs)

/-- The lines `readline(rstrip=False)` yields for `initialize()`'s output
(`_TMX_INIT_TMPL`), each with the `start`/`end` events `lxml` emits after
that line is fed (the header element is self-closing, so its `start` and
`end` both fire on the `/>` line). -/
def headerChunks (src_lang_code : String) :
    List (List Char × List TmxEvent) :=
  [(("<?xml version=\"1.0\" encoding=\"UTF-8\" ?>\n").data, []),
   (("<tmx version=\"1.4\">\n").data, [.start "tmx"]),
   (("<header srclang=\"" ++ src_lang_code ++ "\"\n").data, []),
   (("        adminlang=\"en-us\"\n").data, []),
   (("        o-tmf=\"unknown\"\n").data, []),
   (("        segtype=\"sentence\"\n").data, []),
   (("        creationtool=\"Uplug\"\n").data, []),
   (("        creationtoolversion=\"unknown\"\n").data, []),
   (("        datatype=\"PlainText\" />\n").data,
     [.start "header", .stop "header" (some src_lang_code) []]),
   (("  <body>\n").data, [.start "body"])]

/-- One `<tuv>` line of an exported `<tu>` block. -/
def tuvChunk (code text : String) : List Char :=
  ("      <tuv xml:lang=\"" ++ code ++ "\"><seg>" ++ text ++
    "</seg></tuv>\n").data

/-- The four lines one `feed_parallel_phrase_pair` call writes
(`_TMX_PAIR_TMPL`), with their events; the closing `</tu>` line completes
the `<tu>` element and so carries its `end` event. -/
def pairChunks (src_lang_code dst_lang_code s t : String) :
    List (List Char × List TmxEvent) :=
  [(("    <tu>\n").data, [.start "tu"]),
   (tuvChunk src_lang_code s,
     [.start "tuv", .start "seg", .stop "seg" none [], .stop "tuv" none []]),
   (tuvChunk dst_lang_code t,
     [.start "tuv", .start "seg", .stop "seg" none [], .stop "tuv" none []]),
   (("    </tu>\n").data,
     [.stop "tu" none
       [exportTuv src_lang_code s, exportTuv dst_lang_code t]])]

/-- The lines of `finalize()`'s output (`_TMX_FOOTER`); the last line has
no terminator. -/
def footerChunks : List (List Char × List TmxEvent) :=
  [(("  </body>\n").data, [.stop "body" none []]),
   (("</tmx>").data, [.stop "tmx" none []])]

/-- The complete exported TMX document as its `readline` chunks: one chunk
per line (faithful as long as every line fits in `_SENTENCE_BUFFER_SIZE`
and the codes and texts contain no XML-special characters or line breaks;
the chunks concatenate to exactly the exporter's byte output,
`tmxExportChunks_flatten`). -/
def tmxExportChunks (src_lang_code dst_lang_code : String)
    (pairs : List (String × String)) : List (List Char × List TmxEvent) :=
  headerChunks src_lang_code ++
    (pairs.map fun p =>
      pairChunks src_lang_code dst_lang_code p.1 p.2).flatten ++
    footerChunks

/-- Texts for which the round trip of C8 can hold: non-empty, already
whitespace-trimmed, and free of tabs, line separators and XML-special
characters. -/
def cleanText (s : String) : Prop :=
  s ≠ "" ∧ str_strip s = s ∧
    ∀ c ∈ s.data,
      c ≠ '\t' ∧ c ≠ '\n' ∧ c ≠ '\r' ∧ c ≠ '<' ∧ c ≠ '>' ∧ c ≠ '&'

instance (s : String) : Decidable (cleanText s) := by
  rw [cleanText]
  infer_instance

end AutomlTranslation

namespace AutomlTranslation

theorem roundNEnat_one (a : ℕ) : roundNEnat a 1 = a := by
  rw [roundNEnat, Nat.mod_one, Nat.div_one]
  norm_num

/-- Round-to-nearest is within half a unit: `|roundNEnat a b * b - a| ≤ b/2`. -/
theorem roundNEnat_err (a b : ℕ) (hb : 0 < b) :
    ((roundNEnat a b : ℤ) * b - a).natAbs * 2 ≤ b := by
  obtain ⟨q, r, hr, rfl⟩ : ∃ q r, r < b ∧ a = b * q + r :=
    ⟨a / b, a % b, Nat.mod_lt a hb, (Nat.div_add_mod a b).symm⟩
  have hdiv : (b * q + r) / b = q := by
    rw [Nat.mul_add_div hb, Nat.div_eq_of_lt hr, Nat.add_zero]
  have hmod : (b * q + r) % b = r := by
    rw [Nat.mul_add_mod, Nat.mod_eq_of_lt hr]
  rw [roundNEnat, hdiv, hmod]
  split_ifs with h1 h2 h3
  · have he : ((q : ℤ) * b - (b * q + r : ℕ)) = -(r : ℤ) := by push_cast; ring
    rw [he, Int.natAbs_neg, Int.natAbs_ofNat]
    omega
  · have he : (((q + 1 : ℕ) : ℤ) * b - (b * q + r : ℕ)) = ((b - r : ℕ) : ℤ) := by
      push_cast [Nat.cast_sub hr.le]
      ring
    rw [he, Int.natAbs_ofNat]
    omega
  · have he : ((q : ℤ) * b - (b * q + r : ℕ)) = -(r : ℤ) := by push_cast; ring
    rw [he, Int.natAbs_neg, Int.natAbs_ofNat]
    omega
  · have he : (((q + 1 : ℕ) : ℤ) * b - (b * q + r : ℕ)) = ((b - r : ℕ) : ℤ) := by
      push_cast [Nat.cast_sub hr.le]
      ring
    rw [he, Int.natAbs_ofNat]
    omega

theorem bitsGo_bounds : ∀ fuel n, n ≤ fuel → 1 ≤ n →
    2 ^ (bitsGo fuel n - 1) ≤ n ∧ n < 2 ^ bitsGo fuel n
  | 0, n, hf, h1 => by omega
  | fuel + 1, n, hf, h1 => by
    rw [bitsGo]
    by_cases h2 : n < 2
    · rw [if_pos h2]
      interval_cases n
      · simp
    · rw [if_neg h2]
      obtain ⟨ih1, ih2⟩ := bitsGo_bounds fuel (n / 2) (by omega) (by omega)
      have hb1 : 1 ≤ bitsGo fuel (n / 2) := by
        by_contra h
        have h0 : bitsGo fuel (n / 2) = 0 := by omega
        rw [h0] at ih2
        omega
      constructor
      · have hexp : 2 ^ (bitsGo fuel (n / 2) + 1 - 1) =
            2 * 2 ^ (bitsGo fuel (n / 2) - 1) := by
          rw [Nat.add_sub_cancel, ← pow_succ']
          congr 1
          omega
        rw [hexp]
        omega
      · have hexp : 2 ^ (bitsGo fuel (n / 2) + 1) =
            2 * 2 ^ bitsGo fuel (n / 2) := by
          rw [pow_succ]; ring
        rw [hexp]
        omega

theorem natBits_bounds (n : ℕ) (h1 : 1 ≤ n) :
    2 ^ (natBits n - 1) ≤ n ∧ n < 2 ^ natBits n :=
  bitsGo_bounds n n le_rfl h1

/-- Relative-error bound of binary64 rounding: `|flround p - p| ≤ p / 2^53`. -/
theorem flround_err (p : ℕ) : 2 ^ 53 * ((flround p : ℤ) - p).natAbs ≤ p := by
  rcases Nat.eq_zero_or_pos p with hp | hp
  · subst hp
    simp [flround, natBits, bitsGo, roundNEnat_one]
  by_cases hb : natBits p ≤ 53
  · have hsh : natBits p - 53 = 0 := by omega
    simp only [flround, hsh, pow_zero, roundNEnat_one, Nat.mul_one, sub_self,
      Int.natAbs_zero, Nat.mul_zero]
    exact Nat.zero_le p
  · obtain ⟨hlo, -⟩ := natBits_bounds p hp
    set sh := natBits p - 53 with hshdef
    have hshp : 0 < sh := by omega
    have herr := roundNEnat_err p (2 ^ sh) (Nat.pos_pow_of_pos _ (by norm_num))
    have hcast : ((flround p : ℕ) : ℤ) - p =
        (roundNEnat p (2 ^ sh) : ℤ) * ((2 ^ sh : ℕ) : ℤ) - p := by
      rw [flround, ← hshdef]
      push_cast
      ring
    rw [hcast]
    have h52 : 2 ^ (sh + 52) ≤ p := by
      calc 2 ^ (sh + 52) = 2 ^ (natBits p - 1) := by congr 1; omega
      _ ≤ p := hlo
    calc 2 ^ 53 * ((roundNEnat p (2 ^ sh) : ℤ) * ((2 ^ sh : ℕ) : ℤ) - p).natAbs
        = ((roundNEnat p (2 ^ sh) : ℤ) * ((2 ^ sh : ℕ) : ℤ) - p).natAbs *
            2 * 2 ^ 52 := by ring
      _ ≤ 2 ^ sh * 2 ^ 52 := Nat.mul_le_mul_right _ herr
      _ = 2 ^ (sh + 52) := by rw [← pow_add]
      _ ≤ p := h52

theorem flroundZ_err (z : ℤ) :
    2 ^ 53 * ((flroundZ z : ℤ) - z).natAbs ≤ z.natAbs := by
  rcases Int.lt_trichotomy z 0 with hz | hz | hz
  · have hs : z.sign = -1 := Int.sign_eq_neg_one_of_neg hz
    have h := flround_err z.natAbs
    rw [flroundZ, hs]
    have hz' : ((z.natAbs : ℕ) : ℤ) = -z := by omega
    have he : ((-1 : ℤ) * (flround z.natAbs : ℕ) - z) =
        -((flround z.natAbs : ℤ) - (z.natAbs : ℕ)) := by
      rw [hz']
      ring
    rw [he, Int.natAbs_neg]
    exact h
  · subst hz
    simp [flroundZ]
  · have hs : z.sign = 1 := Int.sign_eq_one_of_pos hz
    have h := flround_err z.natAbs
    rw [flroundZ, hs, one_mul]
    have hz' : (z.natAbs : ℤ) = z := Int.natAbs_of_nonneg hz.le
    calc 2 ^ 53 * ((flround z.natAbs : ℤ) - z).natAbs
        = 2 ^ 53 * ((flround z.natAbs : ℤ) - z.natAbs).natAbs := by rw [hz']
      _ ≤ z.natAbs := h

/-- `ceilPow2 a k` is the integer `c` with `a ≤ 2^k c < a + 2^k`. -/
theorem ceilPow2_bounds (a : ℤ) (k : ℕ) :
    a ≤ 2 ^ k * ceilPow2 a k ∧ 2 ^ k * ceilPow2 a k < a + 2 ^ k := by
  have hk : (0:ℤ) < 2 ^ k := by positivity
  have hfd : (-a).fdiv (2 ^ k) = (-a) / 2 ^ k := Int.fdiv_eq_ediv (-a) hk.le
  have h1 := Int.ediv_add_emod (-a) (2 ^ k)
  have h2 := Int.emod_nonneg (-a) hk.ne'
  have h3 := Int.emod_lt_of_pos (-a) hk
  rw [ceilPow2, hfd]
  constructor <;> nlinarith [h1, h2, h3]

/-- `ceilPow2 a k = ⌈a / 2^k⌉` over the rationals. -/
theorem ceilPow2_eq (a : ℤ) (k : ℕ) : ceilPow2 a k = ⌈(a : ℚ) / 2 ^ k⌉ := by
  have hk : (0:ℚ) < 2 ^ k := by positivity
  obtain ⟨h1, h2⟩ := ceilPow2_bounds a k
  have h1q : (a : ℚ) ≤ 2 ^ k * (ceilPow2 a k : ℚ) := by exact_mod_cast h1
  have h2q : (2 : ℚ) ^ k * (ceilPow2 a k : ℚ) < (a : ℚ) + 2 ^ k := by
    exact_mod_cast h2
  symm
  rw [Int.ceil_eq_iff]
  constructor
  · rw [lt_div_iff₀ hk]
    nlinarith
  · rw [div_le_iff₀ hk]
    nlinarith

theorem autosplit_train_def (N : ℕ) :
    (autosplit_example_count N).train =
      ceilPow2 (flround (flround N * M8) : ℤ) 52 := rfl

theorem autosplit_validation_def (N : ℕ) :
    (autosplit_example_count N).validation =
      ceilPow2 (flroundZ ((flround (flround N * M9) : ℤ) -
        (flround (autosplit_example_count N).train.toNat : ℤ) * 2 ^ 53)) 53 :=
  rfl

theorem autosplit_test_def (N : ℕ) :
    (autosplit_example_count N).test =
      (N : ℤ) - (autosplit_example_count N).validation -
        (autosplit_example_count N).train := rfl

theorem autosplit_example_count_val_one :
    autosplit_example_count 1 = ⟨1, 0, 0⟩ := by decide

theorem autosplit_example_count_val_hundred :
    autosplit_example_count 100 = ⟨80, 10, 10⟩ := by decide

theorem autosplit_counts_sum (N : ℕ) :
    (autosplit_example_count N).total = (N : ℤ) := by
  rw [SplitCounts.total, autosplit_test_def]
  ring

set_option maxRecDepth 8000 in
/-- Non-negativity of the three quotas under the exact float model: for
`N ≥ 21` by accumulating the per-operation rounding-error bounds (each
rounding is off by at most one part in `2^53`), below `21` by computing. -/
theorem autosplit_nonneg (N : ℕ) :
    0 ≤ (autosplit_example_count N).train ∧
    0 ≤ (autosplit_example_count N).validation ∧
    0 ≤ (autosplit_example_count N).test := by
  by_cases hN : N < 21
  · revert hN
    revert N
    decide
  push_neg at hN
  set nf : ℕ := flround N with hnf
  set a8 : ℕ := flround (nf * M8) with ha8
  set train : ℤ := ceilPow2 (a8 : ℤ) 52 with htrain
  set a9 : ℕ := flround (nf * M9) with ha9
  set t' : ℕ := flround train.toNat with ht'
  set D : ℤ := (a9 : ℤ) - (t' : ℤ) * 2 ^ 53 with hD
  set F : ℤ := flroundZ D with hF
  set validation : ℤ := ceilPow2 F 53 with hvalidation
  have hteq : (autosplit_example_count N).train = train := rfl
  have hveq : (autosplit_example_count N).validation = validation := rfl
  have hseq : (autosplit_example_count N).test =
      (N : ℤ) - validation - train := rfl
  rw [hteq, hveq, hseq]
  have e1 : ((2:ℤ) ^ 53 * ((nf : ℤ) - N).natAbs ≤ N) := by
    have h := flround_err N
    rw [hnf]
    exact_mod_cast h
  have e8 : ((2:ℤ) ^ 53 * ((a8 : ℤ) - (nf : ℤ) * 3602879701896397).natAbs
      ≤ (nf : ℤ) * 3602879701896397) := by
    have h := flround_err (nf * M8)
    rw [ha8]
    have hc : ((nf * M8 : ℕ) : ℤ) = (nf : ℤ) * 3602879701896397 := by
      push_cast [M8]
      ring
    rw [← hc]
    exact_mod_cast h
  have e9 : ((2:ℤ) ^ 53 * ((a9 : ℤ) - (nf : ℤ) * 8106479329266893).natAbs
      ≤ (nf : ℤ) * 8106479329266893) := by
    have h := flround_err (nf * M9)
    rw [ha9]
    have hc : ((nf * M9 : ℕ) : ℤ) = (nf : ℤ) * 8106479329266893 := by
      push_cast [M9]
      ring
    rw [← hc]
    exact_mod_cast h
  have tr := ceilPow2_bounds (a8 : ℤ) 52
  have trnn : 0 ≤ train := by
    rw [htrain]
    omega
  have httn : ((train.toNat : ℕ) : ℤ) = train := Int.toNat_of_nonneg trnn
  have e5 : ((2:ℤ) ^ 53 * ((t' : ℤ) - (train.toNat : ℕ)).natAbs ≤
      ((train.toNat : ℕ) : ℤ)) := by
    have h := flround_err train.toNat
    rw [ht']
    exact_mod_cast h
  have eF : ((2:ℤ) ^ 53 * ((F : ℤ) - D).natAbs ≤ D.natAbs) := by
    have h := flroundZ_err D
    rw [hF]
    exact_mod_cast h
  have vb := ceilPow2_bounds F 53
  refine ⟨trnn, ?_, ?_⟩ <;> omega

theorem autosplit_train_nonneg (N : ℕ) :
    0 ≤ (autosplit_example_count N).train :=
  (autosplit_nonneg N).1

theorem autosplit_validation_nonneg (N : ℕ) :
    0 ≤ (autosplit_example_count N).validation :=
  (autosplit_nonneg N).2.1

theorem autosplit_test_nonneg (N : ℕ) :
    0 ≤ (autosplit_example_count N).test :=
  (autosplit_nonneg N).2.2

/-- Core fact about one assignment: a valid draw against non-negative counts
always lands inside the loop, on a class with a strictly positive remaining
count. -/
theorem assign_loop_mem (c : SplitCounts) (i : ℤ)
    (ht : 0 ≤ c.train) (hv : 0 ≤ c.validation) (hs : 0 ≤ c.test)
    (h0 : 0 ≤ i) (hi : i < c.total) :
    assign_loop i c = some (assign_ml_use i c) ∧
      assign_ml_use i c ≠ .UNASSIGNED ∧
      0 < c.get (assign_ml_use i c) := by
  rw [SplitCounts.total] at hi
  rw [assign_ml_use]
  unfold assign_loop
  split_ifs with h1 h2 h3
  · exact ⟨rfl, by simp, by rw [Option.getD, SplitCounts.get]; omega⟩
  · exact ⟨rfl, by simp, by rw [Option.getD, SplitCounts.get]; omega⟩
  · exact ⟨rfl, by simp, by rw [Option.getD, SplitCounts.get]; omega⟩
  · exfalso; omega

/-- Effect of one `autosplit` loop iteration on a state with non-negative
counts, for a valid draw: the chosen class's count drops by exactly one and
its fed tally rises by exactly one; the other classes are untouched; counts
stay non-negative; the quota sum drops by one. -/
theorem autosplit_step_effect (st : SplitRunState) (i : ℤ)
    (ht : 0 ≤ st.counts.train) (hv : 0 ≤ st.counts.validation)
    (hs : 0 ≤ st.counts.test) (h0 : 0 ≤ i) (hi : i < st.counts.total) :
    (autosplit_step st i).counts.get (assign_ml_use i st.counts) =
        st.counts.get (assign_ml_use i st.counts) - 1 ∧
      (∀ w, w ≠ assign_ml_use i st.counts →
        (autosplit_step st i).counts.get w = st.counts.get w) ∧
      (autosplit_step st i).fed.get (assign_ml_use i st.counts) =
        st.fed.get (assign_ml_use i st.counts) + 1 ∧
      (∀ w, w ≠ assign_ml_use i st.counts →
        (autosplit_step st i).fed.get w = st.fed.get w) ∧
      0 ≤ (autosplit_step st i).counts.train ∧
      0 ≤ (autosplit_step st i).counts.validation ∧
      0 ≤ (autosplit_step st i).counts.test ∧
      (autosplit_step st i).counts.total = st.counts.total - 1 := by
  obtain ⟨-, hne, hpos⟩ :=
    assign_loop_mem st.counts i ht hv hs h0 hi
  rcases hu : assign_ml_use i st.counts with _ | _ | _ | _
  · exact absurd hu hne
  all_goals
    rw [hu] at hpos
    refine ⟨?_, ?_, ?_, ?_, ?_, ?_, ?_, ?_⟩ <;>
      first
        | (intro w hw; cases w <;>
            simp_all [autosplit_step, select_ml_use, FedCounts.bump,
              SplitCounts.get, FedCounts.get])
        | (simp_all [autosplit_step, select_ml_use, FedCounts.bump,
            SplitCounts.get, FedCounts.get, SplitCounts.total]
           try omega)

/-- Run invariant of `AutoSplitUtil.autosplit`: over any valid draw
sequence, counts stay non-negative, the quota sum drops by one per pair, and
for every class the fed tally plus the remaining count is conserved. -/
theorem autosplit_run_invariant (draws : List ℤ) :
    ∀ st : SplitRunState,
      0 ≤ st.counts.train → 0 ≤ st.counts.validation → 0 ≤ st.counts.test →
      valid_draws st draws = true →
      0 ≤ (autosplit_run st draws).counts.train ∧
        0 ≤ (autosplit_run st draws).counts.validation ∧
        0 ≤ (autosplit_run st draws).counts.test ∧
        (autosplit_run st draws).counts.total =
          st.counts.total - draws.length ∧
        ∀ w, ((autosplit_run st draws).fed.get w : ℤ) +
            (autosplit_run st draws).counts.get w =
          (st.fed.get w : ℤ) + st.counts.get w := by
  induction draws with
  | nil =>
    intro st ht hv hs _
    exact ⟨ht, hv, hs, by simp [autosplit_run], fun w => rfl⟩
  | cons i is ih =>
    intro st ht hv hs hvalid
    rw [valid_draws] at hvalid
    simp only [Bool.and_eq_true, decide_eq_true_eq] at hvalid
    obtain ⟨⟨h0, hi⟩, hrest⟩ := hvalid
    obtain ⟨hg1, hg2, hf1, hf2, ht', hv', hs', htot⟩ :=
      autosplit_step_effect st i ht hv hs h0 hi
    have hrun : autosplit_run st (i :: is) =
        autosplit_run (autosplit_step st i) is := rfl
    obtain ⟨jt, jv, js, jtot, jw⟩ :=
      ih (autosplit_step st i) ht' hv' hs' hrest
    rw [hrun]
    refine ⟨jt, jv, js, ?_, ?_⟩
    · rw [jtot, htot]
      simp only [List.length_cons]
      push_cast
      ring
    · intro w
      rw [jw w]
      by_cases hw : w = assign_ml_use i st.counts
      · subst hw
        rw [hg1, hf1]
        push_cast
        ring
      · rw [hg2 w hw, hf2 w hw]

/-- C2 as stated is false on the code at one input: the spec's exact-rational
reading `validation = ceil(0.9*N - train)` yields `283080472284116` at
`N = 2830804722841159`, but the program's binary64 arithmetic (modelled
exactly by `autosplit_example_count`) yields `283080472284115`; the `train`
values agree. -/
theorem claim_C2_counterexample :
    (autosplit_example_count 2830804722841159).validation = 283080472284115 ∧
    (autosplit_example_count 2830804722841159).train =
      ⌈(2830804722841159 : ℚ) * (8 / 10)⌉ ∧
    ⌈(2830804722841159 : ℚ) * (9 / 10) -
        ((autosplit_example_count 2830804722841159).train : ℚ)⌉ =
      283080472284116 := by
  have htr : (autosplit_example_count 2830804722841159).train =
      2264643778272928 := by
    set_option maxRecDepth 20000 in decide
  refine ⟨?_, ?_, ?_⟩
  · set_option maxRecDepth 20000 in decide
  · rw [htr]
    symm
    rw [Int.ceil_eq_iff]
    norm_num
  · rw [htr]
    rw [Int.ceil_eq_iff]
    norm_num

/-- C2 (amended): `_autosplit_example_count(N)` computes, in binary64 float
arithmetic (not exact real arithmetic), `train = ceil(N * 0.8)`,
`validation = ceil(N * 0.9 - train)` and `test = N - train - validation`
sequentially in that order — the two ceilings are ceilings of the rounded
float products/difference, whose scaled significands the model carries
exactly, and the literals `0.8`, `0.9` denote the nearest binary64 values
`M8/2^52`, `M9/2^53` (within half an ulp of the decimal fractions); `test`
absorbs the remainder, so the three counts always sum to exactly `N`; for
`N = 1` the result is `train = 1, validation = 0, test = 0`. -/
theorem claim_C2_autosplit_example_count (N : ℕ) :
    (autosplit_example_count N).train =
      ⌈((flround (flround N * M8) : ℤ) : ℚ) / 2 ^ 52⌉ ∧
    (autosplit_example_count N).validation =
      ⌈((flroundZ ((flround (flround N * M9) : ℤ) -
          (flround (autosplit_example_count N).train.toNat : ℤ) * 2 ^ 53) :
            ℤ) : ℚ) / 2 ^ 53⌉ ∧
    (autosplit_example_count N).test =
      (N : ℤ) - (autosplit_example_count N).train -
        (autosplit_example_count N).validation ∧
    (autosplit_example_count N).train + (autosplit_example_count N).validation +
        (autosplit_example_count N).test = (N : ℤ) ∧
    |(M8 : ℚ) / 2 ^ 52 - 8 / 10| ≤ 1 / 2 ^ 54 ∧
    |(M9 : ℚ) / 2 ^ 53 - 9 / 10| ≤ 1 / 2 ^ 54 ∧
    autosplit_example_count 1 = ⟨1, 0, 0⟩ := by
  have h4 := autosplit_counts_sum N
  rw [SplitCounts.total] at h4
  refine ⟨?_, ?_, ?_, h4, ?_, ?_, autosplit_example_count_val_one⟩
  · rw [autosplit_train_def, ceilPow2_eq]
  · rw [autosplit_validation_def, ceilPow2_eq]
  · rw [autosplit_test_def]
    ring
  · rw [abs_le, M8]
    constructor
    · norm_num
    · norm_num
  · rw [abs_le, M9]
    constructor
    · norm_num
    · norm_num

/-- C1: for every total `N` and every sequence of exactly `N` pairs fed
through `AutoSplitUtil.autosplit`, whatever the outcomes of the random
draws, the number of pairs fed to the TRAIN, VALIDATION and TEST exporters
equals exactly the triple computed by `_autosplit_example_count(N)`; in
particular for `N = 100` the three outputs receive exactly 80, 10 and 10
pairs on every run. -/
theorem claim_C1_autosplit_exact_split (N : ℕ) (draws : List ℤ)
    (hlen : draws.length = N)
    (hvalid : valid_draws (autosplit_init N) draws = true) :
    ((autosplit_run (autosplit_init N) draws).fed.train : ℤ) =
        (autosplit_example_count N).train ∧
      ((autosplit_run (autosplit_init N) draws).fed.validation : ℤ) =
        (autosplit_example_count N).validation ∧
      ((autosplit_run (autosplit_init N) draws).fed.test : ℤ) =
        (autosplit_example_count N).test ∧
      autosplit_example_count 100 = ⟨80, 10, 10⟩ := by
  obtain ⟨jt, jv, js, jtot, jw⟩ :=
    autosplit_run_invariant draws (autosplit_init N)
      (autosplit_train_nonneg N) (autosplit_validation_nonneg N)
      (autosplit_test_nonneg N) hvalid
  have h0 : (autosplit_run (autosplit_init N) draws).counts.total = 0 := by
    have hct : (autosplit_init N).counts = autosplit_example_count N := rfl
    rw [jtot, hct, autosplit_counts_sum, hlen]
    ring
  rw [SplitCounts.total] at h0
  have w1 := jw .TRAIN
  have w2 := jw .VALIDATION
  have w3 := jw .TEST
  simp only [SplitCounts.get, FedCounts.get,
    show (autosplit_init N).fed = ⟨0, 0, 0⟩ from rfl,
    show (autosplit_init N).counts = autosplit_example_count N from rfl,
    Nat.cast_zero, zero_add] at w1 w2 w3
  refine ⟨by omega, by omega, by omega, autosplit_example_count_val_hundred⟩

/-- Concrete instantiation of C1 at `N = 5` with the draw sequence
`[0, 0, 0, 0, 0]`. -/
theorem claim_C1_autosplit_exact_split_witness :
    ((autosplit_run (autosplit_init 5) [0, 0, 0, 0, 0]).fed.train : ℤ) =
        (autosplit_example_count 5).train ∧
      ((autosplit_run (autosplit_init 5) [0, 0, 0, 0, 0]).fed.validation : ℤ) =
        (autosplit_example_count 5).validation ∧
      ((autosplit_run (autosplit_init 5) [0, 0, 0, 0, 0]).fed.test : ℤ) =
        (autosplit_example_count 5).test := by
  have hc : autosplit_example_count 5 = ⟨4, 1, 0⟩ := by decide
  have hinit : autosplit_init 5 = ⟨⟨4, 1, 0⟩, ⟨0, 0, 0⟩⟩ := by
    rw [autosplit_init, hc]
  have hvalid : valid_draws (autosplit_init 5) [0, 0, 0, 0, 0] = true := by
    rw [hinit]; decide
  obtain ⟨h1, h2, h3, -⟩ :=
    claim_C1_autosplit_exact_split 5 [0, 0, 0, 0, 0] rfl hvalid
  exact ⟨h1, h2, h3⟩

/-- C10: against non-negative quotas with positive sum, a valid uniform
draw always selects a class with strictly positive remaining count: the
loop never falls through (`return MLUse.TRAIN` after it is unreachable),
`UNASSIGNED` is never produced, the selected class's count is decremented
by exactly one, the other counts are untouched, and every run from
`autosplit_init N` on valid draws keeps all counts non-negative. -/
theorem claim_C10_assign_never_unassigned :
    (∀ (c : SplitCounts) (i : ℤ),
      0 ≤ c.train → 0 ≤ c.validation → 0 ≤ c.test → 0 ≤ i → i < c.total →
      assign_loop i c = some (assign_ml_use i c) ∧
        assign_loop i c ≠ none ∧
        assign_ml_use i c ≠ .UNASSIGNED ∧
        0 < c.get (assign_ml_use i c) ∧
        (select_ml_use c (assign_ml_use i c)).get (assign_ml_use i c) =
          c.get (assign_ml_use i c) - 1 ∧
        (∀ w, w ≠ assign_ml_use i c →
          (select_ml_use c (assign_ml_use i c)).get w = c.get w) ∧
        0 ≤ (select_ml_use c (assign_ml_use i c)).train ∧
        0 ≤ (select_ml_use c (assign_ml_use i c)).validation ∧
        0 ≤ (select_ml_use c (assign_ml_use i c)).test) ∧
    (∀ (N : ℕ) (draws : List ℤ),
      valid_draws (autosplit_init N) draws = true →
      0 ≤ (autosplit_run (autosplit_init N) draws).counts.train ∧
        0 ≤ (autosplit_run (autosplit_init N) draws).counts.validation ∧
        0 ≤ (autosplit_run (autosplit_init N) draws).counts.test) := by
  constructor
  · intro c i ht hv hs h0 hi
    obtain ⟨hl, hne, hpos⟩ := assign_loop_mem c i ht hv hs h0 hi
    obtain ⟨hg1, hg2, -, -, ht', hv', hs', -⟩ :=
      autosplit_step_effect ⟨c, ⟨0, 0, 0⟩⟩ i ht hv hs h0 hi
    have hstep : (autosplit_step ⟨c, ⟨0, 0, 0⟩⟩ i).counts =
        select_ml_use c (assign_ml_use i c) := rfl
    rw [hstep] at hg1 hg2 ht' hv' hs'
    exact ⟨hl, by rw [hl]; simp, hne, hpos, hg1, hg2, ht', hv', hs'⟩
  · intro N draws hvalid
    obtain ⟨jt, jv, js, -, -⟩ :=
      autosplit_run_invariant draws (autosplit_init N)
        (autosplit_train_nonneg N) (autosplit_validation_nonneg N)
        (autosplit_test_nonneg N) hvalid
    exact ⟨jt, jv, js⟩

/-- Concrete instantiation of C10 at quotas `(1, 1, 1)` with draw `1`
(which selects VALIDATION) and at the run `autosplit_init 2` with draws
`[0, 0]`. -/
theorem claim_C10_assign_never_unassigned_witness :
    assign_loop 1 ⟨1, 1, 1⟩ = some (assign_ml_use 1 ⟨1, 1, 1⟩) ∧
      assign_ml_use 1 ⟨1, 1, 1⟩ ≠ .UNASSIGNED ∧
      0 < SplitCounts.get ⟨1, 1, 1⟩ (assign_ml_use 1 ⟨1, 1, 1⟩) ∧
      0 ≤ (autosplit_run (autosplit_init 2) [0, 0]).counts.train := by
  have h := claim_C10_assign_never_unassigned
  have ha := h.1 ⟨1, 1, 1⟩ 1 (by norm_num) (by norm_num) (by norm_num)
    (by norm_num) (by rw [SplitCounts.total]; norm_num)
  have hc : autosplit_example_count 2 = ⟨2, 0, 0⟩ := by decide
  have hinit : autosplit_init 2 = ⟨⟨2, 0, 0⟩, ⟨0, 0, 0⟩⟩ := by
    rw [autosplit_init, hc]
  have hvalid : valid_draws (autosplit_init 2) [0, 0] = true := by
    rw [hinit]; decide
  have hb := h.2 2 [0, 0] hvalid
  exact ⟨ha.1, ha.2.2.1, ha.2.2.2.1, hb.1⟩

theorem splitOnChar_ne_nil (sep : Char) : ∀ l : List Char, splitOnChar sep l ≠ []
  | [] => by simp [splitOnChar]
  | c :: cs => by
    rw [splitOnChar]
    cases h : splitOnChar sep cs with
    | nil => exact absurd h (splitOnChar_ne_nil sep cs)
    | cons f rest => by_cases hc : c = sep <;> simp [hc]

/-- The first field of Python's `split(sep)` is the prefix before the first
separator. -/
theorem splitOnChar_head (sep : Char) :
    ∀ l : List Char,
      (splitOnChar sep l).headD [] = l.takeWhile (fun c => c != sep)
  | [] => rfl
  | c :: cs => by
    rw [splitOnChar]
    cases h : splitOnChar sep cs with
    | nil => exact absurd h (splitOnChar_ne_nil sep cs)
    | cons f rest =>
      have ih := splitOnChar_head sep cs
      rw [h] at ih
      simp only [List.headD_cons] at ih
      by_cases hc : c = sep
      · simp [hc, List.takeWhile_cons]
      · simp only [if_neg hc, List.headD_cons, List.takeWhile_cons]
        have : (c != sep) = true := by simp [hc]
        rw [this]
        simp [ih]

theorem except_bind_ok {ε α β : Type} (a : α) (f : α → Except ε β) :
    (Except.ok a : Except ε α) >>= f = f a := rfl

theorem except_bind_error {ε α β : Type} (m : ε) (f : α → Except ε β) :
    (Except.error m : Except ε α) >>= f = Except.error m := rfl

/-- `_verify_element` never changes `body_inited` on success: the source
only ever assigns `self._body_inited` in `__init__`. -/
theorem verify_element_body_inited (st : TmxVerifyState) (action tag : String)
    (v : TmxVerifyState) (h : _verify_element st action tag = .ok v) :
    v.body_inited = st.body_inited := by
  rcases hp : _PARENT_TAG_NAME tag with - | parent
  · simp only [_verify_element, hp] at h
    cases h
    rfl
  · simp only [_verify_element, hp] at h
    split_ifs at h
    all_goals cases h
    all_goals rfl

/-- `tmxProcessEvent` never changes `body_inited` on success. -/
theorem tmxProcessEvent_body_inited (sl dl : String) (st : TmxRunState)
    (e : TmxEvent) (st' : TmxRunState)
    (h : tmxProcessEvent sl dl st e = .ok st') :
    st'.verify.body_inited = st.verify.body_inited := by
  cases e with
  | start tag =>
    rcases hv : _verify_element st.verify "start" tag with m | v
    · simp only [tmxProcessEvent, hv] at h
      cases h
    · simp only [tmxProcessEvent, hv] at h
      cases h
      exact verify_element_body_inited _ _ _ _ hv
  | stop tag srclang children =>
    rcases hv : _verify_element st.verify "end" tag with m | v
    · simp only [tmxProcessEvent, hv] at h
      cases h
    · simp only [tmxProcessEvent, hv] at h
      have hbv := verify_element_body_inited _ _ _ _ hv
      by_cases h1 : (tag == "header") = true
      · rw [if_pos h1] at h
        rcases hh : _parse_header_element sl srclang with m | u
        · simp only [hh] at h
          cases h
        · simp only [hh] at h
          cases h
          exact hbv
      · rw [if_neg h1] at h
        by_cases h2 : (tag == "tu") = true
        · rw [if_pos h2] at h
          rcases ht : _parse_tu_element sl dl children with ⟨src, dst, merr⟩
          rcases merr with - | m
          · simp only [ht] at h
            cases h
            exact hbv
          · simp only [ht, _skip_invalid_tmx_data, Bool.false_eq_true,
              if_false] at h
            cases h
        · rw [if_neg h2] at h
          cases h
          exact hbv

/-- Along any successful event run from the initial parser state,
`body_inited` stays `false`: the `Duplicate body tag.` check can never
fire. -/
theorem foldlM_body_inited (sl dl : String) :
    ∀ (events : List TmxEvent) (st0 st : TmxRunState),
      List.foldlM (tmxProcessEvent sl dl) st0 events = .ok st →
      st.verify.body_inited = st0.verify.body_inited
  | [], st0, st, h => by
    rw [List.foldlM_nil] at h
    injection h with h
    rw [h]
  | e :: es, st0, st, h => by
    rw [List.foldlM_cons] at h
    rcases h1 : tmxProcessEvent sl dl st0 e with m | st1
    · rw [h1, except_bind_error] at h
      cases h
    · rw [h1, except_bind_ok] at h
      rw [foldlM_body_inited sl dl es st1 st h]
      exact tmxProcessEvent_body_inited sl dl st0 e st1 h1

/-- C3 as stated is false on the code at one input: the source never
assigns `self._body_inited = True`, so a document with two sibling `<body>`
elements parses without any error — no `Duplicate body tag.` is raised. -/
theorem claim_C3_counterexample :
    tmxFeedChunks "en" "zh" initTmxRunState
      [(("<tmx><header></header><body></body><body></body></tmx>").data,
        [.start "tmx", .start "header", .stop "header" none [],
         .start "body", .stop "body" none [],
         .start "body", .stop "body" none [],
         .stop "tmx" none []])] =
      .ok ⟨⟨[""], true, false⟩, 0, 0, [], []⟩ := by
  rfl

/-- C3 (amended): `TmxParser._verify_element` rejects a recognized start
tag whose immediate parent on the stack is not its required parent, a
duplicate `header`, a `body` before any `header`, and an end tag not
matching the top of the stack (citing an unclosed tag); in particular
parsing `<tmx><tu></tu></tmx>` fails with `InvalidFormat` citing invalid
tag structure at line 1.  A duplicate `body`, however, raises no error:
`_body_inited` is never set after its `False` initialization, so it is
`false` in every state reachable from the initial state, and a second
sibling `<body>` start under `<tmx>` after a `header` is accepted. -/
theorem claim_C3_tmx_structure_validation :
    (∀ (st : TmxVerifyState) (tag parent : String),
      _PARENT_TAG_NAME tag = some parent →
      st.tag_name_stack.headD "" ≠ parent →
      _verify_element st "start" tag =
        .error ("Invalid tag structure: <" ++ tag ++ "> should go inside <" ++
          parent ++ ">, not <" ++ st.tag_name_stack.headD "" ++ ">.")) ∧
    (∀ st : TmxVerifyState, st.tag_name_stack.headD "" = "tmx" →
      st.header_inited = true →
      _verify_element st "start" "header" = .error "Duplicate header tag.") ∧
    (∀ st : TmxVerifyState, st.tag_name_stack.headD "" = "tmx" →
      st.body_inited = false → st.header_inited = false →
      _verify_element st "start" "body" = .error "header should before body.") ∧
    (∀ (st : TmxVerifyState) (tag : String), _PARENT_TAG_NAME tag ≠ none →
      st.tag_name_stack.headD "" ≠ tag →
      _verify_element st "end" tag =
        .error ("Unclosed tag " ++ st.tag_name_stack.headD "" ++ ".")) ∧
    (∀ (sl dl : String) (events : List TmxEvent) (st : TmxRunState),
      List.foldlM (tmxProcessEvent sl dl) initTmxRunState events = .ok st →
      st.verify.body_inited = false) ∧
    (∀ st : TmxVerifyState, st.tag_name_stack.headD "" = "tmx" →
      st.header_inited = true → st.body_inited = false →
      _verify_element st "start" "body" =
        .ok ⟨"body" :: st.tag_name_stack, true, false⟩) ∧
    tmxFeedChunks "en" "zh" initTmxRunState
      [(("<tmx><tu></tu></tmx>").data,
        [.start "tmx", .start "tu", .stop "tu" none [], .stop "tmx" none []])] =
      .error ⟨"TMX", some 1,
        "Invalid tag structure: <tu> should go inside <body>, not <tmx>."⟩ := by
  refine ⟨?_, ?_, ?_, ?_, ?_, ?_, ?_⟩
  · intro st tag parent hp htop
    rw [List.headD_eq_head?] at htop
    simp [_verify_element, hp, htop]
  · intro st htop hh
    rw [List.headD_eq_head?] at htop
    simp [_verify_element, _PARENT_TAG_NAME, htop, hh]
  · intro st htop hb hh
    rw [List.headD_eq_head?] at htop
    simp [_verify_element, _PARENT_TAG_NAME, htop, hb, hh]
  · intro st tag hr htop
    rw [List.headD_eq_head?] at htop
    rcases h : _PARENT_TAG_NAME tag with - | parent
    · exact absurd h hr
    simp [_verify_element, h, htop]
  · intro sl dl events st h
    exact foldlM_body_inited sl dl events initTmxRunState st h
  · intro st htop hh hb
    rw [List.headD_eq_head?] at htop
    simp [_verify_element, _PARENT_TAG_NAME, htop, hh, hb]
  · rfl

/-- Concrete instantiations of every branch of C3 (amended): all four error
cases, the dead-flag invariant after one event, and the acceptance of a
start of `body` with the header seen. -/
theorem claim_C3_tmx_structure_validation_witness :
    _verify_element ⟨["tmx", ""], true, false⟩ "start" "tu" =
        .error "Invalid tag structure: <tu> should go inside <body>, not <tmx>." ∧
      _verify_element ⟨["tmx", ""], true, false⟩ "start" "header" =
        .error "Duplicate header tag." ∧
      _verify_element ⟨["tmx", ""], false, false⟩ "start" "body" =
        .error "header should before body." ∧
      _verify_element ⟨["tmx", ""], true, false⟩ "end" "body" =
        .error "Unclosed tag tmx." ∧
      (⟨⟨["tmx", ""], false, false⟩, 0, 0, [], []⟩ :
          TmxRunState).verify.body_inited = false ∧
      _verify_element ⟨["tmx", ""], true, false⟩ "start" "body" =
        .ok ⟨["body", "tmx", ""], true, false⟩ := by
  obtain ⟨h1, h2, h3, h4, h5, h6, -⟩ := claim_C3_tmx_structure_validation
  exact ⟨h1 ⟨["tmx", ""], true, false⟩ "tu" "body" rfl (by decide),
    h2 ⟨["tmx", ""], true, false⟩ rfl rfl,
    h3 ⟨["tmx", ""], false, false⟩ rfl rfl rfl,
    h4 ⟨["tmx", ""], true, false⟩ "body" (by decide) (by decide),
    h5 "en" "zh" [.start "tmx"] ⟨⟨["tmx", ""], false, false⟩, 0, 0, [], []⟩ rfl,
    h6 ⟨["tmx", ""], true, false⟩ rfl rfl rfl⟩

/-- C4: with the skip-tolerance switch hard-coded off, a completed `<tu>`
whose extracted texts yield an error reason — both missing, else source
missing, else target missing, in that precedence — makes the parser raise
`InvalidFormat` immediately (citing the current line number) instead of
appending to the skipped-records list; the tolerant path is never taken. -/
theorem claim_C4_tu_errors_fatal :
    _skip_invalid_tmx_data = false ∧
    (∀ (sl dl : String) (children : List TuvChild)
      (src dst err : Option String),
      _parse_tu_element sl dl children = (src, dst, err) →
      (str_falsy src = true → str_falsy dst = true →
        err = some
          "No sentence found in source and target languages in this <tu>") ∧
      (str_falsy src = true → str_falsy dst = false →
        err = some "No sentence found in source language in this <tu>") ∧
      (str_falsy src = false → str_falsy dst = true →
        err = some "No sentence found in target language in this <tu>") ∧
      (str_falsy src = false → str_falsy dst = false → err = none)) ∧
    (∀ (sl dl : String) (st : TmxRunState) (srclang : Option String)
      (children : List TuvChild) (v : TmxVerifyState)
      (src dst : Option String) (m : String),
      _verify_element st.verify "end" "tu" = .ok v →
      _parse_tu_element sl dl children = (src, dst, some m) →
      tmxProcessEvent sl dl st (.stop "tu" srclang children) =
        .error ⟨"TMX", some (st.line_index + 1), m⟩) := by
  refine ⟨rfl, ?_, ?_⟩
  · intro sl dl children src dst err h
    rcases hscan : tu_scan sl dl (none, none) children with ⟨s0, d0⟩
    simp only [_parse_tu_element, hscan] at h
    split_ifs at h with h1 h2 h3 <;>
      · simp only [Prod.mk.injEq] at h
        obtain ⟨rfl, rfl, rfl⟩ := h
        refine ⟨?_, ?_, ?_, ?_⟩ <;> intro ha hb <;> simp_all
  · intro sl dl st srclang children v src dst m hv htu
    simp only [tmxProcessEvent, hv, htu, _skip_invalid_tmx_data]
    rfl

/-- Concrete instantiation of C4: an empty `<tu>` yields the
both-languages-missing message and an immediate `InvalidFormat`. -/
theorem claim_C4_tu_errors_fatal_witness :
    (_parse_tu_element "en" "zh" []).2.2 =
        some "No sentence found in source and target languages in this <tu>" ∧
      tmxProcessEvent "en" "zh"
          ⟨⟨["tu", "body", "tmx", ""], true, false⟩, 0, 0, [], []⟩
          (.stop "tu" none []) =
        .error ⟨"TMX", some 1,
          "No sentence found in source and target languages in this <tu>"⟩ := by
  have h := claim_C4_tu_errors_fatal
  have h1 := (h.2.1 "en" "zh" [] none none
    (some "No sentence found in source and target languages in this <tu>")
    rfl).1 rfl rfl
  have h2 := h.2.2 "en" "zh"
    ⟨⟨["tu", "body", "tmx", ""], true, false⟩, 0, 0, [], []⟩ none []
    ⟨["body", "tmx", ""], true, false⟩ none none
    "No sentence found in source and target languages in this <tu>" rfl rfl
  exact ⟨rfl, h2⟩

/-- C6 as stated is false on the code at one input: a header that carries
an empty `srclang` attribute raises no error (`if not src_lang: return`)
even though the empty locale differs from the configured locale. -/
theorem claim_C6_counterexample :
    _parse_header_element (_parse_locale "en") (some "") = .ok () ∧
      _parse_locale "" ≠ _parse_locale "en" := by
  exact ⟨rfl, by decide⟩

/-- C6 (amended): the parsed locale is the code lower-cased and truncated
at its first `-`, two codes denote the same language iff these truncations
are equal (`en-US` matches `en-GB`), a header lacking `srclang` raises no
error, and for a *non-empty* `srclang` parsing raises `InvalidFormat` iff
its locale differs from the configured source language's locale. -/
theorem claim_C6_locale_and_header (code1 code2 src_lang_code s : String)
    (hs : s ≠ "") :
    _parse_locale code1 =
        ⟨(code1.data.map Char.toLower).takeWhile (fun c => c != '-')⟩ ∧
      (_is_same_language (_parse_locale code1) (_parse_locale code2) = true ↔
        (code1.data.map Char.toLower).takeWhile (fun c => c != '-') =
          (code2.data.map Char.toLower).takeWhile (fun c => c != '-')) ∧
      _is_same_language (_parse_locale "en-US") (_parse_locale "en-GB") =
        true ∧
      _parse_header_element (_parse_locale src_lang_code) none = .ok () ∧
      ((∃ e, _parse_header_element (_parse_locale src_lang_code) (some s) =
          .error e) ↔ _parse_locale s ≠ _parse_locale src_lang_code) := by
  have hloc : ∀ code : String, _parse_locale code =
      ⟨(code.data.map Char.toLower).takeWhile (fun c => c != '-')⟩ := by
    intro code
    rw [_parse_locale, splitOnChar_head]
  refine ⟨hloc code1, ?_, by decide, rfl, ?_⟩
  · rw [_is_same_language, beq_iff_eq, hloc code1, hloc code2]
    exact ⟨fun h => by injection h, fun h => by rw [h]⟩
  · have hbeq : (s == "") = false := beq_eq_false_iff_ne.mpr hs
    by_cases heq : _parse_locale s = _parse_locale src_lang_code
    · simp [_parse_header_element, hbeq, _is_same_language, heq]
    · simp [_parse_header_element, hbeq, _is_same_language, heq]

/-- Concrete instantiation of C6 (amended) at codes `en-US`, `en-GB`,
configured source `en`, header `srclang` value `fr`. -/
theorem claim_C6_locale_and_header_witness :
    _is_same_language (_parse_locale "en-US") (_parse_locale "en-GB") =
        true ∧
      ((∃ e, _parse_header_element (_parse_locale "en") (some "fr") =
          .error e) ↔ _parse_locale "fr" ≠ _parse_locale "en") := by
  have h := claim_C6_locale_and_header "en-US" "en-GB" "en" "fr"
    (by decide)
  exact ⟨h.2.2.1, h.2.2.2.2⟩

theorem streamReadlineGo_append_no_newline :
    ∀ (n : ℕ) (l1 l2 : List Char), '\n' ∉ l1 → n ≤ l1.length →
      streamReadlineGo n (l1 ++ l2) = (l1.take n, l1.drop n ++ l2)
  | 0, l1, l2, _, _ => by simp [streamReadlineGo]
  | n + 1, [], l2, _, h => absurd h (by simp)
  | n + 1, c :: cs, l2, hn, h => by
    have hc : c ≠ '\n' := fun hc => hn (by rw [hc]; exact List.mem_cons_self _ _)
    have ih := streamReadlineGo_append_no_newline n cs l2
      (fun hm => hn (List.mem_cons_of_mem c hm)) (by simpa using h)
    simp [streamReadlineGo, hc, ih]

theorem streamReadlineGo_terminated :
    ∀ (n : ℕ) (l1 l2 : List Char), '\n' ∉ l1 → l1.length + 1 ≤ n →
      streamReadlineGo n (l1 ++ '\n' :: l2) = (l1 ++ ['\n'], l2)
  | 0, _, _, _, h => absurd h (by omega)
  | _ + 1, [], l2, _, _ => by simp [streamReadlineGo]
  | n + 1, c :: cs, l2, hn, h => by
    have hc : c ≠ '\n' := fun hc => hn (by rw [hc]; exact List.mem_cons_self _ _)
    have ih := streamReadlineGo_terminated n cs l2
      (fun hm => hn (List.mem_cons_of_mem c hm)) (by simp at h; omega)
    simp [streamReadlineGo, hc, ih]

theorem streamReadlineGo_no_interior_newline :
    ∀ (n : ℕ) (l : List Char), '\n' ∉ (streamReadlineGo n l).1.dropLast
  | 0, l => by simp [streamReadlineGo]
  | n + 1, [] => by simp [streamReadlineGo]
  | n + 1, c :: cs => by
    by_cases hc : c = '\n'
    · simp [streamReadlineGo, hc]
    · have ih := streamReadlineGo_no_interior_newline n cs
      rcases hgo : streamReadlineGo n cs with ⟨c1, r1⟩
      rw [hgo] at ih
      cases c1 with
      | nil => simp [streamReadlineGo, hc, hgo]
      | cons d ds =>
        simp only [streamReadlineGo, if_neg hc, hgo, List.dropLast_cons₂,
          List.mem_cons]
        push_neg
        exact ⟨fun hh => hc hh.symm, by simpa using ih⟩

theorem mem_rstripChar {x ch : Char} {l : List Char} (h : x ∈ rstripChar ch l) :
    x ∈ l := by
  rw [rstripChar, List.mem_reverse] at h
  exact List.mem_reverse.mp ((List.dropWhile_sublist _).mem h)

theorem rstripChar_eq_self {ch : Char} {l : List Char}
    (h : l.getLast? ≠ some ch) : rstripChar ch l = l := by
  rw [rstripChar]
  cases hrev : l.reverse with
  | nil => simp [List.reverse_eq_nil_iff.mp hrev]
  | cons c tl =>
    have hc : (c == ch) = false := by
      rw [beq_eq_false_iff_ne]
      intro hcc
      apply h
      rw [← List.head?_reverse, hrev, hcc]
      rfl
    rw [List.dropWhile_cons, hc]
    simp only [Bool.false_eq_true, if_false]
    rw [← hrev, List.reverse_reverse]

theorem rstripChar_eq_self_of_not_mem {ch : Char} {l : List Char}
    (h : ch ∉ l) : rstripChar ch l = l := by
  apply rstripChar_eq_self
  intro hlast
  exact h (List.mem_of_getLast?_eq_some hlast)

theorem rstripChar_concat_same (ch : Char) (l : List Char) :
    rstripChar ch (l ++ [ch]) = rstripChar ch l := by
  rw [rstripChar, rstripChar, List.reverse_append]
  simp [List.dropWhile_cons]

/-- For a chunk whose only possible newline is its final character (as
`readline` chunks are), the source's
`rstrip('\n').rstrip('\r').rstrip('\n')` equals: drop the line terminator,
then drop all trailing carriage returns. -/
theorem triple_rstrip_eq (chunk : List Char)
    (hint : '\n' ∉ chunk.dropLast) :
    rstripChar '\n' (rstripChar '\r' (rstripChar '\n' chunk)) =
      rstripChar '\r'
        (if endsWithChar chunk '\n' then chunk.dropLast else chunk) := by
  by_cases hend : endsWithChar chunk '\n' = true
  · rw [if_pos hend]
    rw [endsWithChar] at hend
    have hlast : chunk.getLast? = some '\n' := by
      exact beq_iff_eq.mp hend
    have hsplit : chunk.dropLast ++ ['\n'] = chunk :=
      List.dropLast_append_getLast? '\n' hlast
    have h1 : rstripChar '\n' chunk = chunk.dropLast := by
      rw [← hsplit, rstripChar_concat_same, List.dropLast_concat]
      exact rstripChar_eq_self_of_not_mem hint
    rw [h1]
    apply rstripChar_eq_self
    intro hbad
    exact hint (mem_rstripChar (List.mem_of_getLast?_eq_some hbad))
  · rw [if_neg hend]
    have hend' : chunk.getLast? ≠ some '\n' := by
      rw [endsWithChar] at hend
      intro hcc
      exact hend (by rw [hcc]; rfl)
    have hno : '\n' ∉ chunk := by
      intro hmem
      rcases List.eq_nil_or_concat chunk with hnil | ⟨l', a, rfl⟩
      · rw [hnil] at hmem; cases hmem
      · simp only [List.concat_eq_append] at hint hend' hmem
        rw [List.dropLast_concat] at hint
        rcases List.mem_append.mp hmem with h1 | h2
        · exact hint h1
        · rw [List.getLast?_concat] at hend'
          simp only [List.mem_singleton] at h2
          exact hend' (by rw [h2])
    rw [rstripChar_eq_self_of_not_mem hno]
    apply rstripChar_eq_self
    intro hbad
    exact hno (mem_rstripChar (List.mem_of_getLast?_eq_some hbad))

theorem endsWithNLCR_false_of_interior {chunk : List Char}
    (hint : '\n' ∉ chunk.dropLast) : endsWithNLCR chunk = false := by
  rw [endsWithNLCR]
  cases hrev : chunk.reverse with
  | nil => rfl
  | cons c1 tl =>
    cases tl with
    | nil => rfl
    | cons c2 tl2 =>
      have hchunk : chunk = tl2.reverse ++ [c2] ++ [c1] := by
        have := congrArg List.reverse hrev
        rw [List.reverse_reverse] at this
        rw [this]
        simp
      have hc2 : c2 ∈ chunk.dropLast := by
        rw [hchunk, List.dropLast_concat]
        simp
      have hf : (c2 == '\n') = false :=
        beq_false_of_ne (fun hcc => hint (hcc ▸ hc2))
      show (c1 == '\r' && c2 == '\n') = false
      rw [hf, Bool.and_false]

theorem splitOnChar_no_sep (sep : Char) :
    ∀ l : List Char, sep ∉ l → splitOnChar sep l = [l]
  | [], _ => rfl
  | c :: cs, h => by
    have ih := splitOnChar_no_sep sep cs (fun hm => h (List.mem_cons_of_mem c hm))
    have hc : c ≠ sep := fun hc => h (by rw [← hc]; exact List.mem_cons_self c cs)
    simp [splitOnChar, ih, hc]

theorem splitOnChar_sep_cons (sep : Char) :
    ∀ (l1 l2 : List Char), sep ∉ l1 →
      splitOnChar sep (l1 ++ sep :: l2) = l1 :: splitOnChar sep l2
  | [], l2, _ => by
    rw [List.nil_append, splitOnChar]
    cases h : splitOnChar sep l2 with
    | nil => exact absurd h (splitOnChar_ne_nil sep l2)
    | cons f rest => simp
  | c :: cs, l2, h => by
    have ih := splitOnChar_sep_cons sep cs l2
      (fun hm => h (List.mem_cons_of_mem c hm))
    have hc : c ≠ sep := fun hc => h (by rw [← hc]; exact List.mem_cons_self c cs)
    rw [List.cons_append, splitOnChar, ih]
    simp [hc]

theorem splitOnChar_length (sep : Char) :
    ∀ l : List Char,
      (splitOnChar sep l).length = l.countP (fun c => c == sep) + 1
  | [] => rfl
  | c :: cs => by
    have ih := splitOnChar_length sep cs
    rw [splitOnChar]
    cases h : splitOnChar sep cs with
    | nil => exact absurd h (splitOnChar_ne_nil sep cs)
    | cons f rest =>
      rw [h] at ih
      by_cases hc : c = sep
      · simp only [if_pos hc, List.length_cons, List.countP_cons]
        simp only [List.length_cons] at ih
        simp [hc, ih]
      · simp only [if_neg hc, List.length_cons, List.countP_cons]
        simp only [List.length_cons] at ih
        have hcf : (c == sep) = false := beq_false_of_ne hc
        simp [hcf, ih]

/-- `readline` on a non-empty chunk that does not trip the buffer check. -/
theorem readline_ok (fmt : String) (st : LineState)
    (stream chunk rest : List Char) (check rs : Bool)
    (hread : streamReadline stream SENTENCE_BUFFER_SIZE = (chunk, rest))
    (hne : chunk ≠ [])
    (hbuf : check = false ∨
      (endsWithChar chunk '\n' || endsWithNLCR chunk) = false ∨
      chunk.length ≠ SENTENCE_BUFFER_SIZE) :
    readline fmt st stream check rs =
      .ok ((if rs then
          rstripChar '\n' (rstripChar '\r' (rstripChar '\n' chunk))
        else chunk),
        ⟨st.next_read_line_index,
          if endsWithChar chunk '\n' || endsWithNLCR chunk then
            st.next_read_line_index + 1
          else st.next_read_line_index⟩,
        rest) := by
  rw [readline]
  simp only [hread]
  rw [if_neg hne]
  cases hterm : (endsWithChar chunk '\n' || endsWithNLCR chunk)
  · simp [hterm]
  · rcases hbuf with hb | hb | hb
    · simp [hterm, hb]
    · rw [hterm] at hb; cases hb
    · have hb2 : (chunk.length == SENTENCE_BUFFER_SIZE) = false :=
        beq_false_of_ne hb
      simp [hterm, hb2]

/-- C7: for every line read by `TsvParser.next_parallel_phrase_pair` (one
that fits the read bound), the terminator and trailing carriage returns are
stripped, and the call returns the pair of tab-separated fields of the
stripped line verbatim iff it contains exactly one tab (exactly two
fields); any other field count raises `InvalidFormat` citing the current
1-based line number. -/
theorem claim_C7_tsv_line_format (st : LineState)
    (stream chunk rest stripped : List Char)
    (hread : streamReadline stream SENTENCE_BUFFER_SIZE = (chunk, rest))
    (hne : chunk ≠ []) (hlt : chunk.length < SENTENCE_BUFFER_SIZE)
    (hstr : stripped = rstripChar '\r'
      (if endsWithChar chunk '\n' then chunk.dropLast else chunk)) :
    (∀ a b : List Char, splitOnChar '\t' stripped = [a, b] →
      tsv_next_parallel_phrase_pair st stream =
        .ok ((a, b),
          ⟨st.next_read_line_index,
            if endsWithChar chunk '\n' then st.next_read_line_index + 1
            else st.next_read_line_index⟩, rest)) ∧
    ((splitOnChar '\t' stripped).length ≠ 2 →
      tsv_next_parallel_phrase_pair st stream =
        .error (.invalid ⟨"TSV", some (st.next_read_line_index + 1),
          "Each line can only contains 2 phrases."⟩)) ∧
    ((splitOnChar '\t' stripped).length = 2 ↔
      stripped.countP (fun c => c == '\t') = 1) := by
  have hint : '\n' ∉ chunk.dropLast := by
    have h0 := streamReadlineGo_no_interior_newline SENTENCE_BUFFER_SIZE stream
    rw [streamReadline] at hread
    rw [hread] at h0
    exact h0
  have hnlcr : endsWithNLCR chunk = false := endsWithNLCR_false_of_interior hint
  have hr := readline_ok "TSV" st stream chunk rest true true hread hne
    (Or.inr (Or.inr (Nat.ne_of_lt hlt)))
  rw [hnlcr, Bool.or_false, if_pos rfl, triple_rstrip_eq chunk hint,
    ← hstr] at hr
  refine ⟨?_, ?_, ?_⟩
  · intro a b hsplit
    simp only [tsv_next_parallel_phrase_pair, hr, hsplit]
  · intro hlen
    simp only [tsv_next_parallel_phrase_pair, hr]
    rcases hsp : splitOnChar '\t' stripped with - | ⟨a, tl⟩
    · rfl
    · cases tl with
      | nil => rfl
      | cons b tl2 =>
        cases tl2 with
        | nil => exact absurd (by rw [hsp]; rfl) hlen
        | cons c tl3 => rfl
  · rw [splitOnChar_length]
    omega

/-- Concrete instantiations of C7: a well-formed line with a trailing
carriage return, and a tabless line. -/
theorem claim_C7_tsv_line_format_witness :
    tsv_next_parallel_phrase_pair ⟨0, 0⟩ ['a', '\t', 'b', '\r', '\n'] =
        .ok ((['a'], ['b']), ⟨0, 1⟩, []) ∧
      tsv_next_parallel_phrase_pair ⟨0, 0⟩ ['a', 'b', '\n'] =
        .error (.invalid ⟨"TSV", some 1,
          "Each line can only contains 2 phrases."⟩) := by
  have hread1 : streamReadline ['a', '\t', 'b', '\r', '\n']
      SENTENCE_BUFFER_SIZE = (['a', '\t', 'b', '\r', '\n'], []) := by
    have h := streamReadlineGo_terminated SENTENCE_BUFFER_SIZE
      ['a', '\t', 'b', '\r'] [] (by decide) (by norm_num [SENTENCE_BUFFER_SIZE])
    simpa [streamReadline] using h
  have hread2 : streamReadline ['a', 'b', '\n'] SENTENCE_BUFFER_SIZE =
      (['a', 'b', '\n'], []) := by
    have h := streamReadlineGo_terminated SENTENCE_BUFFER_SIZE
      ['a', 'b'] [] (by decide) (by norm_num [SENTENCE_BUFFER_SIZE])
    simpa [streamReadline] using h
  constructor
  · have h := (claim_C7_tsv_line_format ⟨0, 0⟩ ['a', '\t', 'b', '\r', '\n']
      ['a', '\t', 'b', '\r', '\n'] [] _ hread1 (by decide)
      (by norm_num [SENTENCE_BUFFER_SIZE]) rfl).1 ['a'] ['b'] (by decide)
    exact h
  · have h := (claim_C7_tsv_line_format ⟨0, 0⟩ ['a', 'b', '\n']
      ['a', 'b', '\n'] [] _ hread2 (by decide)
      (by norm_num [SENTENCE_BUFFER_SIZE]) rfl).2.1 (by decide)
    exact h

/-- Unfolding `TsvParser.next_parallel_phrase_pair` after a successful
`readline`. -/
theorem tsv_next_eq_of_readline (st : LineState) (stream line : List Char)
    (st' : LineState) (rest : List Char)
    (h : readline "TSV" st stream true true = .ok (line, st', rest)) :
    tsv_next_parallel_phrase_pair st stream =
      (match splitOnChar '\t' line with
      | [a, b] => .ok ((a, b), st', rest)
      | _ =>
        .error (.invalid ⟨"TSV", some (st'.line_index + 1),
          "Each line can only contains 2 phrases."⟩)) := by
  rw [tsv_next_parallel_phrase_pair, h]

/-- C5 is a code bug: the buffer-limit check sits inside the
terminator-found branch of `readline`, so a logical line longer than
`_SENTENCE_BUFFER_SIZE` comes back as a full-size chunk *without* a
newline, skips the check entirely, and is silently treated as a complete
record.  Here a single logical line of `SENTENCE_BUFFER_SIZE + 3`
characters (its only newline is the stream's last character) makes
`TsvParser.next_parallel_phrase_pair` return a silently truncated pair
instead of the buffer-limit `InvalidFormat` required by the spec and by
`readline`'s own docstring. -/
theorem claim_C5_buffer_limit_not_enforced :
    c5_stream.length = SENTENCE_BUFFER_SIZE + 4 ∧
      '\n' ∉ c5_stream.dropLast ∧
      c5_stream.getLast? = some '\n' ∧
      tsv_next_parallel_phrase_pair ⟨0, 0⟩ c5_stream =
        .ok ((['x'], 'y' :: List.replicate (SENTENCE_BUFFER_SIZE - 3) 'z'),
          ⟨0, 0⟩, List.replicate 3 'z' ++ ['\n']) := by
  have hsz : SENTENCE_BUFFER_SIZE = (SENTENCE_BUFFER_SIZE - 3) + 1 + 1 + 1 := by
    norm_num [SENTENCE_BUFFER_SIZE]
  have hm3 : SENTENCE_BUFFER_SIZE - 3 ≠ 0 := by
    norm_num [SENTENCE_BUFFER_SIZE]
  have hstream : c5_stream =
      ('x' :: '\t' :: 'y' :: List.replicate SENTENCE_BUFFER_SIZE 'z') ++
        '\n' :: [] := by
    rw [c5_stream, List.cons_append, List.cons_append, List.cons_append]
  have hnol1 : '\n' ∉
      ('x' :: '\t' :: 'y' :: List.replicate SENTENCE_BUFFER_SIZE 'z') := by
    intro h
    simp only [List.mem_cons, List.mem_replicate] at h
    rcases h with h | h | h | ⟨-, h⟩ <;> exact absurd h (by decide)
  have hread : streamReadline c5_stream SENTENCE_BUFFER_SIZE =
      (('x' :: '\t' :: 'y' ::
          List.replicate SENTENCE_BUFFER_SIZE 'z').take SENTENCE_BUFFER_SIZE,
        ('x' :: '\t' :: 'y' ::
          List.replicate SENTENCE_BUFFER_SIZE 'z').drop SENTENCE_BUFFER_SIZE ++
          '\n' :: []) := by
    rw [streamReadline, hstream]
    refine streamReadlineGo_append_no_newline SENTENCE_BUFFER_SIZE _ _ hnol1 ?_
    rw [List.length_cons, List.length_cons, List.length_cons,
      List.length_replicate]
    exact Nat.le_succ_of_le (Nat.le_succ_of_le (Nat.le_succ _))
  have htake : ('x' :: '\t' :: 'y' ::
      List.replicate SENTENCE_BUFFER_SIZE 'z').take SENTENCE_BUFFER_SIZE =
      'x' :: '\t' :: 'y' :: List.replicate (SENTENCE_BUFFER_SIZE - 3) 'z' := by
    conv_lhs => rw [hsz]
    rw [List.take_succ_cons, List.take_succ_cons, List.take_succ_cons,
      List.take_replicate]
    have hmin : min (SENTENCE_BUFFER_SIZE - 3)
        (SENTENCE_BUFFER_SIZE - 3 + 1 + 1 + 1) = SENTENCE_BUFFER_SIZE - 3 := by
      generalize SENTENCE_BUFFER_SIZE - 3 = m
      omega
    rw [hmin]
  have hdrop : ('x' :: '\t' :: 'y' ::
      List.replicate SENTENCE_BUFFER_SIZE 'z').drop SENTENCE_BUFFER_SIZE =
      List.replicate 3 'z' := by
    conv_lhs => rw [hsz]
    rw [List.drop_succ_cons, List.drop_succ_cons, List.drop_succ_cons,
      List.drop_replicate]
    have hsub : SENTENCE_BUFFER_SIZE - 3 + 1 + 1 + 1 -
        (SENTENCE_BUFFER_SIZE - 3) = 3 := by
      generalize SENTENCE_BUFFER_SIZE - 3 = m
      omega
    rw [hsub]
  rw [htake, hdrop] at hread
  have hlastc : ('x' :: '\t' :: 'y' ::
      List.replicate (SENTENCE_BUFFER_SIZE - 3) 'z').getLast? = some 'z' := by
    rw [show ('x' :: '\t' :: 'y' ::
        List.replicate (SENTENCE_BUFFER_SIZE - 3) 'z') = ['x', '\t', 'y'] ++
        List.replicate (SENTENCE_BUFFER_SIZE - 3) 'z' from rfl,
      List.getLast?_append, List.getLast?_replicate, if_neg hm3]
    rfl
  have hendF : endsWithChar ('x' :: '\t' :: 'y' ::
      List.replicate (SENTENCE_BUFFER_SIZE - 3) 'z') '\n' = false := by
    rw [endsWithChar, hlastc]
    rfl
  have hnoc : '\n' ∉ ('x' :: '\t' :: 'y' ::
      List.replicate (SENTENCE_BUFFER_SIZE - 3) 'z') := by
    intro h
    simp only [List.mem_cons, List.mem_replicate] at h
    rcases h with h | h | h | ⟨-, h⟩ <;> exact absurd h (by decide)
  have hnlcr : endsWithNLCR ('x' :: '\t' :: 'y' ::
      List.replicate (SENTENCE_BUFFER_SIZE - 3) 'z') = false :=
    endsWithNLCR_false_of_interior
      (fun h => hnoc ((List.dropLast_sublist _).subset h))
  have hrNL : rstripChar '\n' ('x' :: '\t' :: 'y' ::
      List.replicate (SENTENCE_BUFFER_SIZE - 3) 'z') =
      'x' :: '\t' :: 'y' :: List.replicate (SENTENCE_BUFFER_SIZE - 3) 'z' :=
    rstripChar_eq_self (by rw [hlastc]; decide)
  have hrCR : rstripChar '\r' ('x' :: '\t' :: 'y' ::
      List.replicate (SENTENCE_BUFFER_SIZE - 3) 'z') =
      'x' :: '\t' :: 'y' :: List.replicate (SENTENCE_BUFFER_SIZE - 3) 'z' :=
    rstripChar_eq_self (by rw [hlastc]; decide)
  have hr := readline_ok "TSV" ⟨0, 0⟩ c5_stream
    ('x' :: '\t' :: 'y' :: List.replicate (SENTENCE_BUFFER_SIZE - 3) 'z')
    (List.replicate 3 'z' ++ '\n' :: []) true true hread
    (List.cons_ne_nil _ _)
    (Or.inr (Or.inl (by rw [hendF, hnlcr]; rfl)))
  rw [hendF, hnlcr, Bool.or_false, if_pos rfl, hrNL, hrCR, hrNL] at hr
  have hsplit : splitOnChar '\t' ('x' :: '\t' :: 'y' ::
      List.replicate (SENTENCE_BUFFER_SIZE - 3) 'z') =
      [['x'], 'y' :: List.replicate (SENTENCE_BUFFER_SIZE - 3) 'z'] := by
    have hno2 : '\t' ∉
        ('y' :: List.replicate (SENTENCE_BUFFER_SIZE - 3) 'z') := by
      intro h
      simp only [List.mem_cons, List.mem_replicate] at h
      rcases h with h | ⟨-, h⟩ <;> exact absurd h (by decide)
    have h := splitOnChar_sep_cons '\t' ['x']
      ('y' :: List.replicate (SENTENCE_BUFFER_SIZE - 3) 'z') (by decide)
    rw [show ('x' :: '\t' :: 'y' ::
        List.replicate (SENTENCE_BUFFER_SIZE - 3) 'z') = ['x'] ++ '\t' ::
        ('y' :: List.replicate (SENTENCE_BUFFER_SIZE - 3) 'z') from rfl, h,
      splitOnChar_no_sep _ _ hno2]
  refine ⟨?_, ?_, ?_, ?_⟩
  · rw [hstream, List.length_append, List.length_cons, List.length_cons,
      List.length_cons, List.length_replicate, List.length_cons,
      List.length_nil]
  · rw [hstream, show (('x' :: '\t' :: 'y' ::
        List.replicate SENTENCE_BUFFER_SIZE 'z') ++ '\n' :: []) =
        (('x' :: '\t' :: 'y' :: List.replicate SENTENCE_BUFFER_SIZE 'z') ++
          ['\n']) from rfl, List.dropLast_concat]
    exact hnol1
  · rw [hstream]
    exact List.getLast?_concat _
  · rw [tsv_next_eq_of_readline ⟨0, 0⟩ c5_stream _ _ _ hr, hsplit]
    rfl

theorem string_foldl_append (l : List String) :
    ∀ a : String,
      List.foldl (fun r s => r ++ s) a l =
        a ++ List.foldl (fun r s => r ++ s) "" l := by
  induction l with
  | nil => intro a; simp
  | cons x xs ih =>
    intro a
    simp only [List.foldl_cons]
    rw [ih (a ++ x), ih ("" ++ x), String.empty_append, String.append_assoc]

/-- C9 as stated is false on the code at one input: `initialize()`'s
header element is not byte-identical to the single-line header shown in
the spec's section-6 block (the code puts every attribute on its own line,
indented by eight spaces). -/
theorem claim_C9_counterexample :
    TMX_INIT_TMPL "en" ≠ tmxInitSpecSection6 "en" := by
  decide

/-- C9 (amended): `initialize()` writes the XML declaration, the
`<tmx version="1.4">` opener, the header element carrying exactly the
attributes `srclang`, `adminlang="en-us"`, `o-tmf="unknown"`,
`segtype="sentence"`, `creationtool="Uplug"`,
`creationtoolversion="unknown"`, `datatype="PlainText"` — each attribute
after the first on its own line behind eight spaces — and the body
opener; each `feed_parallel_phrase_pair(src, dst)` writes one `<tu>`
containing two `<tuv>` whose `xml:lang` values are the original,
unmodified constructor-supplied language codes and whose `<seg>` contents
are the raw texts with no XML-escaping; `finalize()` writes the body and
tmx closers; the total output is their concatenation in feed order. -/
theorem claim_C9_tmx_export_format (src_code dst_code s t : String)
    (pairs : List (String × String)) :
    TMX_INIT_TMPL src_code =
      "<?xml version=\"1.0\" encoding=\"UTF-8\" ?>\n" ++
        "<tmx version=\"1.4\">\n" ++
        "<header srclang=\"" ++ src_code ++ "\"\n" ++
        "        adminlang=\"en-us\"\n" ++
        "        o-tmf=\"unknown\"\n" ++
        "        segtype=\"sentence\"\n" ++
        "        creationtool=\"Uplug\"\n" ++
        "        creationtoolversion=\"unknown\"\n" ++
        "        datatype=\"PlainText\" />\n" ++
        "  <body>\n" ∧
      TMX_PAIR_TMPL src_code s dst_code t =
        "    <tu>\n" ++
          "      <tuv xml:lang=\"" ++ src_code ++ "\"><seg>" ++ s ++
          "</seg></tuv>\n" ++
          "      <tuv xml:lang=\"" ++ dst_code ++ "\"><seg>" ++ t ++
          "</seg></tuv>\n" ++
          "    </tu>\n" ∧
      TMX_FOOTER = "  </body>\n</tmx>" ∧
      tmxExporterOutput src_code dst_code ((s, t) :: pairs) =
        TMX_INIT_TMPL src_code ++
          (TMX_PAIR_TMPL src_code s dst_code t ++
            String.join (pairs.map fun p =>
              TMX_PAIR_TMPL src_code p.1 dst_code p.2)) ++
          TMX_FOOTER := by
  refine ⟨?_, ?_, rfl, ?_⟩
  · simp [TMX_INIT_TMPL, String.append_assoc]
  · simp [TMX_PAIR_TMPL, String.append_assoc]
  · simp only [tmxExporterOutput, String.join, List.map_cons, List.foldl_cons,
      String.empty_append]
    rw [string_foldl_append]

theorem streamReadlineGo_nil (n : ℕ) : streamReadlineGo n [] = ([], []) := by
  cases n <;> rfl

theorem readline_empty (fmt : String) (st : LineState) (check rs : Bool) :
    readline fmt st [] check rs = .error .finished := by
  rw [readline, streamReadline, streamReadlineGo_nil]
  rfl

theorem tsv_next_empty (st : LineState) :
    tsv_next_parallel_phrase_pair st [] = .error .finished := by
  rw [tsv_next_parallel_phrase_pair, readline_empty]

theorem tsvParseAllGo_finished (fuel : ℕ) (st : LineState)
    (stream : List Char) (acc : List (List Char × List Char))
    (h : tsv_next_parallel_phrase_pair st stream = .error .finished) :
    tsvParseAllGo (fuel + 1) st stream acc = .ok acc := by
  simp only [tsvParseAllGo, h]

theorem tsvParseAllGo_ok_step (fuel : ℕ) (st : LineState)
    (stream : List Char) (pair : List Char × List Char) (st' : LineState)
    (rest : List Char) (acc : List (List Char × List Char))
    (h : tsv_next_parallel_phrase_pair st stream = .ok (pair, st', rest)) :
    tsvParseAllGo (fuel + 1) st stream acc =
      tsvParseAllGo fuel st' rest (acc ++ [pair]) := by
  simp only [tsvParseAllGo, h]

/-- One exported TSV line parses back to its pair, leaving the remaining
stream untouched. -/
theorem tsv_next_export_line (st : LineState) (s d E : List Char)
    (hts : '\t' ∉ s) (hns : '\n' ∉ s) (htd : '\t' ∉ d) (hnd : '\n' ∉ d)
    (hrd : '\r' ∉ d)
    (hlen : s.length + d.length + 2 < SENTENCE_BUFFER_SIZE) :
    tsv_next_parallel_phrase_pair st (tsv_feed_line s d ++ E) =
      .ok ((s, d),
        ⟨st.next_read_line_index, st.next_read_line_index + 1⟩, E) := by
  have hno1 : '\n' ∉ (s ++ '\t' :: d) := by
    intro h
    rcases List.mem_append.mp h with h | h
    · exact hns h
    · rcases List.mem_cons.mp h with h | h
      · exact absurd h (by decide)
      · exact hnd h
  have hl1 : (s ++ '\t' :: d).length = s.length + d.length + 1 := by
    rw [List.length_append, List.length_cons]
    omega
  have hstream : tsv_feed_line s d ++ E = (s ++ '\t' :: d) ++ '\n' :: E := by
    simp [tsv_feed_line]
  have hread : streamReadline (tsv_feed_line s d ++ E) SENTENCE_BUFFER_SIZE =
      ((s ++ '\t' :: d) ++ ['\n'], E) := by
    rw [streamReadline, hstream]
    refine streamReadlineGo_terminated SENTENCE_BUFFER_SIZE _ _ hno1 ?_
    rw [hl1]
    generalize hgen : SENTENCE_BUFFER_SIZE = N at hlen ⊢
    omega
  have hclen : ((s ++ '\t' :: d) ++ ['\n']).length ≠ SENTENCE_BUFFER_SIZE := by
    rw [List.length_append, hl1, List.length_cons, List.length_nil]
    generalize hgen : SENTENCE_BUFFER_SIZE = N at hlen ⊢
    omega
  have hend : endsWithChar ((s ++ '\t' :: d) ++ ['\n']) '\n' = true := by
    rw [endsWithChar, List.getLast?_concat]
    rfl
  have hint : '\n' ∉ ((s ++ '\t' :: d) ++ ['\n']).dropLast := by
    rw [List.dropLast_concat]
    exact hno1
  have hr := readline_ok "TSV" st (tsv_feed_line s d ++ E)
    ((s ++ '\t' :: d) ++ ['\n']) E true true hread (by simp)
    (Or.inr (Or.inr hclen))
  rw [hend, Bool.true_or, if_pos rfl, triple_rstrip_eq _ hint, hend,
    if_pos rfl, List.dropLast_concat] at hr
  have hstrip : rstripChar '\r' (s ++ '\t' :: d) = s ++ '\t' :: d := by
    apply rstripChar_eq_self
    intro hlast
    rw [List.getLast?_append] at hlast
    cases hd : ('\t' :: d).getLast? with
    | none => simp at hd
    | some x =>
      rw [hd] at hlast
      simp only [Option.or_some, Option.some.injEq] at hlast
      have hx : x ∈ '\t' :: d := List.mem_of_getLast?_eq_some hd
      rcases List.mem_cons.mp hx with h | h
      · rw [hlast] at h
        exact absurd h (by decide)
      · rw [hlast] at h
        exact hrd h
  rw [hstrip] at hr
  have hsplit : splitOnChar '\t' (s ++ '\t' :: d) = [s, d] := by
    rw [splitOnChar_sep_cons '\t' s d hts, splitOnChar_no_sep '\t' d htd]
  rw [tsv_next_eq_of_readline st (tsv_feed_line s d ++ E) _ _ _ hr, hsplit]
  rfl

theorem tsvParseAllGo_export :
    ∀ (ps : List (List Char × List Char)) (fuel : ℕ) (st : LineState)
      (acc : List (List Char × List Char)),
      (∀ p ∈ ps, '\t' ∉ p.1 ∧ '\n' ∉ p.1 ∧ '\t' ∉ p.2 ∧ '\n' ∉ p.2 ∧
        '\r' ∉ p.2 ∧ p.1.length + p.2.length + 2 < SENTENCE_BUFFER_SIZE) →
      (tsvExportStream ps).length < fuel →
      tsvParseAllGo fuel st (tsvExportStream ps) acc = .ok (acc ++ ps)
  | [], fuel, st, acc, _, hf => by
    have he : tsvExportStream [] = ([] : List Char) := rfl
    rw [he] at hf ⊢
    cases fuel with
    | zero => exact absurd hf (by simp)
    | succ f =>
      rw [tsvParseAllGo_finished f st [] acc (tsv_next_empty st),
        List.append_nil]
  | (s, d) :: rest, fuel, st, acc, hp, hf => by
    have hcons : tsvExportStream ((s, d) :: rest) =
        tsv_feed_line s d ++ tsvExportStream rest := by
      simp [tsvExportStream]
    have h1 := hp (s, d) (List.mem_cons_self _ _)
    cases fuel with
    | zero => exact absurd hf (by omega)
    | succ f =>
      rw [hcons]
      have hnext := tsv_next_export_line st s d (tsvExportStream rest)
        h1.1 h1.2.1 h1.2.2.1 h1.2.2.2.1 h1.2.2.2.2.1 h1.2.2.2.2.2
      rw [tsvParseAllGo_ok_step f st _ _ _ _ acc hnext]
      have hf' : (tsvExportStream rest).length < f := by
        rw [hcons, List.length_append] at hf
        have hpos : 0 < (tsv_feed_line s d).length := by
          simp [tsv_feed_line]
        omega
      rw [tsvParseAllGo_export rest f _ _
        (fun q hq => hp q (List.mem_cons_of_mem _ hq)) hf']
      rw [List.append_assoc]
      rfl

theorem parse_tuv_export (code s : String) (hs : s ≠ "")
    (ht : str_strip s = s) :
    _parse_tuv_element (exportTuv code s) = (s, some (_parse_locale code)) := by
  rw [_parse_tuv_element, exportTuv]
  simp only [if_neg hs, List.map_cons, List.map_nil, ht,
    List.filter_cons, List.filter_nil]
  rw [if_pos (decide_eq_true hs)]
  rw [show String.intercalate " " [s] = s from rfl, ht]
  rfl

theorem parse_tu_export (cs cd s t : String)
    (hs : s ≠ "") (hts : str_strip s = s) (hd : t ≠ "") (htt : str_strip t = t)
    (hcs : _parse_locale cs ≠ "") (hcd : _parse_locale cd ≠ "")
    (hdiff : _parse_locale cs ≠ _parse_locale cd) :
    _parse_tu_element (_parse_locale cs) (_parse_locale cd)
      [exportTuv cs s, exportTuv cd t] = (some s, some t, none) := by
  have hcsf : (_parse_locale cs == "") = false := beq_false_of_ne hcs
  have hcdf : (_parse_locale cd == "") = false := beq_false_of_ne hcd
  have hdf : (_parse_locale cd == _parse_locale cs) = false :=
    beq_false_of_ne (Ne.symm hdiff)
  have hsf : (s == "") = false := beq_false_of_ne hs
  have htf : (t == "") = false := beq_false_of_ne hd
  have hscan : tu_scan (_parse_locale cs) (_parse_locale cd) (none, none)
      [exportTuv cs s, exportTuv cd t] = (some s, some t) := by
    rw [tu_scan]
    rw [show (exportTuv cs s).tag = "tuv" from rfl]
    simp only [parse_tuv_export cs s hs hts, _is_same_language, hcsf, hsf,
      beq_self_eq_true, if_true, if_false, ne_eq, not_true_eq_false,
      Bool.false_eq_true]
    rw [tu_scan]
    rw [show (exportTuv cd t).tag = "tuv" from rfl]
    simp only [parse_tuv_export cd t hd htt, _is_same_language, hcdf, htf,
      hdf, beq_self_eq_true, if_true, if_false, ne_eq, not_true_eq_false,
      Bool.false_eq_true]
    rw [tu_scan]
  rw [_parse_tu_element, hscan]
  simp only [str_falsy, hsf, htf, Bool.and_self, Bool.false_eq_true,
    if_false]

/-- `String.join` distributes over `::`. -/
theorem string_join_cons (a : String) (l : List String) :
    String.join (a :: l) = a ++ String.join l := by
  rw [String.join, String.join, List.foldl_cons, string_foldl_append,
    String.empty_append]

set_option maxRecDepth 8000 in
/-- The header chunks concatenate to exactly `initialize()`'s bytes. -/
theorem headerChunks_flatten (cs : String) :
    ((headerChunks cs).map Prod.fst).flatten = (TMX_INIT_TMPL cs).data := by
  simp only [headerChunks, TMX_INIT_TMPL, List.map_cons, List.map_nil,
    List.flatten_cons, List.flatten_nil, String.data_append, List.append_nil,
    List.append_assoc, List.cons_append, List.nil_append]

set_option maxRecDepth 8000 in
/-- One exported `<tu>` block's chunks concatenate to exactly the bytes
`feed_parallel_phrase_pair` writes. -/
theorem pairChunks_flatten (cs cd s t : String) :
    ((pairChunks cs cd s t).map Prod.fst).flatten =
      (TMX_PAIR_TMPL cs s cd t).data := by
  simp only [pairChunks, tuvChunk, TMX_PAIR_TMPL, List.map_cons, List.map_nil,
    List.flatten_cons, List.flatten_nil, String.data_append, List.append_nil,
    List.append_assoc, List.cons_append, List.nil_append]

/-- The chunk decomposition is byte-faithful: the chunks concatenate to
exactly the exporter's output. -/
theorem tmxExportChunks_flatten (cs cd : String)
    (pairs : List (String × String)) :
    ((tmxExportChunks cs cd pairs).map Prod.fst).flatten =
      (tmxExporterOutput cs cd pairs).data := by
  have hmid : ∀ ps : List (String × String),
      (((ps.map fun p => pairChunks cs cd p.1 p.2).flatten.map
          Prod.fst).flatten) =
        (String.join (ps.map fun p => TMX_PAIR_TMPL cs p.1 cd p.2)).data := by
    intro ps
    induction ps with
    | nil => rfl
    | cons q qs ih =>
      rw [List.map_cons, List.flatten_cons, List.map_append,
        List.flatten_append, ih, pairChunks_flatten, List.map_cons,
        string_join_cons, String.data_append]
  rw [tmxExportChunks, tmxExporterOutput, List.map_append, List.map_append,
    List.flatten_append, List.flatten_append, headerChunks_flatten, hmid]
  rw [String.data_append, String.data_append]
  rw [(by decide : (TMX_FOOTER).data =
    (("  </body>\n") : String).data ++ (("</tmx>") : String).data)]
  simp [footerChunks, List.append_assoc]

theorem endsWithChar_append (l s : List Char) (c : Char) (hs : s ≠ [])
    (h : endsWithChar s c = true) : endsWithChar (l ++ s) c = true := by
  rw [endsWithChar, List.getLast?_append_of_ne_nil l hs]
  exact h

theorem tuvChunk_length (code text : String) :
    (tuvChunk code text).length = 41 + code.length + text.length := by
  have hc : code.data.length = code.length := rfl
  have ht : text.data.length = text.length := rfl
  rw [tuvChunk, String.data_append, String.data_append, String.data_append,
    String.data_append, List.length_append, List.length_append,
    List.length_append, List.length_append,
    (by decide : ((("      <tuv xml:lang=\"") : String).data).length = 21),
    (by decide : ((("\"><seg>") : String).data).length = 7),
    (by decide : ((("</seg></tuv>\n") : String).data).length = 13)]
  simp only [hc, ht]
  omega

theorem tuvChunk_endsWith (code text : String) :
    endsWithChar (tuvChunk code text) '\n' = true := by
  rw [tuvChunk, String.data_append]
  exact endsWithChar_append _ _ _ (by decide) (by decide)

/-- Processing a chunk with no events only performs `readline`'s line
bookkeeping. -/
theorem tmxFeedChunk_no_events (sl dl : String) (v : TmxVerifyState)
    (li ni : ℕ) (sk : List (ℕ × Option String × Option String × String))
    (ps : List (String × String)) (chunk : List Char)
    (h : endsWithChar chunk '\n' = true) :
    tmxFeedChunk sl dl ⟨v, li, ni, sk, ps⟩ chunk [] =
      .ok ⟨v, ni, ni + 1, sk, ps⟩ := by
  rw [tmxFeedChunk, h]
  rfl

/-- Processing the `<tmx version="1.4">` line. -/
theorem tmxFeedChunk_tmx_open (sl dl : String) (li ni : ℕ)
    (sk : List (ℕ × Option String × Option String × String))
    (ps : List (String × String)) :
    tmxFeedChunk sl dl ⟨⟨[""], false, false⟩, li, ni, sk, ps⟩
      (("<tmx version=\"1.4\">\n") : String).data [.start "tmx"] =
      .ok ⟨⟨["tmx", ""], false, false⟩, ni, ni + 1, sk, ps⟩ := by
  have h : endsWithChar ((("<tmx version=\"1.4\">\n") : String).data) '\n' =
      true := by decide
  rw [tmxFeedChunk, h]
  simp [tmxProcessEvent, _verify_element, _PARENT_TAG_NAME, except_bind_ok,
    List.foldlM_cons, List.foldlM_nil]

/-- Processing the self-closing header line: `start` and `end` of `header`
fire, and `_parse_header_element` accepts its own code's locale (whether or
not the attribute value is empty). -/
theorem tmxFeedChunk_header_close (cs dl : String) (li ni : ℕ)
    (sk : List (ℕ × Option String × Option String × String))
    (ps : List (String × String)) :
    tmxFeedChunk (_parse_locale cs) dl
      ⟨⟨["tmx", ""], false, false⟩, li, ni, sk, ps⟩
      (("        datatype=\"PlainText\" />\n") : String).data
      [.start "header", .stop "header" (some cs) []] =
      .ok ⟨⟨["tmx", ""], true, false⟩, ni, ni + 1, sk, ps⟩ := by
  have h : endsWithChar
      ((("        datatype=\"PlainText\" />\n") : String).data) '\n' =
      true := by decide
  rw [tmxFeedChunk, h]
  by_cases hcs : (cs == "") = true
  · simp [tmxProcessEvent, _verify_element, _PARENT_TAG_NAME, except_bind_ok,
      _parse_header_element, hcs, List.foldlM_cons, List.foldlM_nil]
  · simp only [Bool.not_eq_true] at hcs
    simp [tmxProcessEvent, _verify_element, _PARENT_TAG_NAME, except_bind_ok,
      _parse_header_element, hcs, _is_same_language, List.foldlM_cons,
      List.foldlM_nil]

/-- Processing the `<body>` line. -/
theorem tmxFeedChunk_body_open (sl dl : String) (li ni : ℕ)
    (sk : List (ℕ × Option String × Option String × String))
    (ps : List (String × String)) :
    tmxFeedChunk sl dl ⟨⟨["tmx", ""], true, false⟩, li, ni, sk, ps⟩
      (("  <body>\n") : String).data [.start "body"] =
      .ok ⟨⟨["body", "tmx", ""], true, false⟩, ni, ni + 1, sk, ps⟩ := by
  have h : endsWithChar ((("  <body>\n") : String).data) '\n' = true := by
    decide
  rw [tmxFeedChunk, h]
  simp [tmxProcessEvent, _verify_element, _PARENT_TAG_NAME, except_bind_ok,
    List.foldlM_cons, List.foldlM_nil]

/-- Processing the `<tu>` opening line. -/
theorem tmxFeedChunk_tu_open (sl dl : String) (li ni : ℕ)
    (sk : List (ℕ × Option String × Option String × String))
    (ps : List (String × String)) :
    tmxFeedChunk sl dl ⟨⟨["body", "tmx", ""], true, false⟩, li, ni, sk, ps⟩
      (("    <tu>\n") : String).data [.start "tu"] =
      .ok ⟨⟨["tu", "body", "tmx", ""], true, false⟩, ni, ni + 1, sk, ps⟩ := by
  have h : endsWithChar ((("    <tu>\n") : String).data) '\n' = true := by
    decide
  rw [tmxFeedChunk, h]
  simp [tmxProcessEvent, _verify_element, _PARENT_TAG_NAME, except_bind_ok,
    List.foldlM_cons, List.foldlM_nil]

/-- Processing a `<tuv>` line: `tuv` and `seg` open and close, no `end`
handler fires, and the verification state returns to its pre-line value. -/
theorem tmxFeedChunk_tuv_line (sl dl : String) (li ni : ℕ)
    (sk : List (ℕ × Option String × Option String × String))
    (ps : List (String × String)) (chunk : List Char)
    (h : endsWithChar chunk '\n' = true) :
    tmxFeedChunk sl dl
      ⟨⟨["tu", "body", "tmx", ""], true, false⟩, li, ni, sk, ps⟩ chunk
      [.start "tuv", .start "seg", .stop "seg" none [], .stop "tuv" none []] =
      .ok ⟨⟨["tu", "body", "tmx", ""], true, false⟩, ni, ni + 1, sk, ps⟩ := by
  rw [tmxFeedChunk, h]
  simp [tmxProcessEvent, _verify_element, _PARENT_TAG_NAME, except_bind_ok,
    List.foldlM_cons, List.foldlM_nil]

/-- Processing the `</tu>` line: the `tu` element completes and its parsed
pair is appended to the batch buffer. -/
theorem tmxFeedChunk_tu_close (cs cd s t : String)
    (hs : s ≠ "") (hts : str_strip s = s) (hd : t ≠ "") (htt : str_strip t = t)
    (hcs : _parse_locale cs ≠ "") (hcd : _parse_locale cd ≠ "")
    (hdiff : _parse_locale cs ≠ _parse_locale cd)
    (li ni : ℕ) (sk : List (ℕ × Option String × Option String × String))
    (ps : List (String × String)) :
    tmxFeedChunk (_parse_locale cs) (_parse_locale cd)
      ⟨⟨["tu", "body", "tmx", ""], true, false⟩, li, ni, sk, ps⟩
      (("    </tu>\n") : String).data
      [.stop "tu" none [exportTuv cs s, exportTuv cd t]] =
      .ok ⟨⟨["body", "tmx", ""], true, false⟩, ni, ni + 1, sk,
        ps ++ [(s, t)]⟩ := by
  have h : endsWithChar ((("    </tu>\n") : String).data) '\n' = true := by
    decide
  rw [tmxFeedChunk, h]
  simp [tmxProcessEvent, _verify_element, _PARENT_TAG_NAME, except_bind_ok,
    parse_tu_export cs cd s t hs hts hd htt hcs hcd hdiff,
    _skip_invalid_tmx_data, tmx_invalid, List.foldlM_cons, List.foldlM_nil]

/-- Processing the `</body>` line. -/
theorem tmxFeedChunk_body_close (sl dl : String) (li ni : ℕ)
    (sk : List (ℕ × Option String × Option String × String))
    (ps : List (String × String)) :
    tmxFeedChunk sl dl ⟨⟨["body", "tmx", ""], true, false⟩, li, ni, sk, ps⟩
      (("  </body>\n") : String).data [.stop "body" none []] =
      .ok ⟨⟨["tmx", ""], true, false⟩, ni, ni + 1, sk, ps⟩ := by
  have h : endsWithChar ((("  </body>\n") : String).data) '\n' = true := by
    decide
  rw [tmxFeedChunk, h]
  simp [tmxProcessEvent, _verify_element, _PARENT_TAG_NAME, except_bind_ok,
    List.foldlM_cons, List.foldlM_nil]

/-- Processing the final `</tmx>` chunk, which has no line terminator: the
line counter is not advanced. -/
theorem tmxFeedChunk_tmx_close (sl dl : String) (li ni : ℕ)
    (sk : List (ℕ × Option String × Option String × String))
    (ps : List (String × String)) :
    tmxFeedChunk sl dl ⟨⟨["tmx", ""], true, false⟩, li, ni, sk, ps⟩
      (("</tmx>") : String).data [.stop "tmx" none []] =
      .ok ⟨⟨[""], true, false⟩, ni, ni, sk, ps⟩ := by
  have h1 : endsWithChar ((("</tmx>") : String).data) '\n' = false := by
    decide
  have h2 : endsWithNLCR ((("</tmx>") : String).data) = false := by decide
  rw [tmxFeedChunk, h1, h2]
  simp [tmxProcessEvent, _verify_element, _PARENT_TAG_NAME, except_bind_ok,
    List.foldlM_cons, List.foldlM_nil]

theorem tmxDriveChunks_nil (sl dl : String) (st : TmxRunState) (acc : ℕ) :
    tmxDriveChunks sl dl st acc [] = .ok st := rfl

/-- A chunk whose events yield no new pair advances the driver and adds the
chunk's length to the running byte tally (which must stay within the
buffer limit). -/
theorem tmxDriveChunks_cons_keep {sl dl : String} {st st' : TmxRunState}
    {acc : ℕ} {chunk : List Char} {events : List TmxEvent}
    (rest : List (List Char × List TmxEvent)) (acc' : ℕ)
    (hf : tmxFeedChunk sl dl st chunk events = .ok st')
    (hp : st'.pairs = st.pairs)
    (hlen : acc + chunk.length = acc')
    (hacc : acc' ≤ SENTENCE_BUFFER_SIZE) :
    tmxDriveChunks sl dl st acc ((chunk, events) :: rest) =
      tmxDriveChunks sl dl st' acc' rest := by
  simp only [tmxDriveChunks, hf]
  rw [hp, if_neg (lt_irrefl _), hlen, if_neg (not_lt.mpr hacc)]

/-- A chunk whose events yield at least one new pair makes `_read_next`
return; the byte tally restarts at `0` on the next call. -/
theorem tmxDriveChunks_cons_yield {sl dl : String} {st st' : TmxRunState}
    {acc : ℕ} {chunk : List Char} {events : List TmxEvent}
    (rest : List (List Char × List TmxEvent))
    (hf : tmxFeedChunk sl dl st chunk events = .ok st')
    (hg : st.pairs.length < st'.pairs.length) :
    tmxDriveChunks sl dl st acc ((chunk, events) :: rest) =
      tmxDriveChunks sl dl st' 0 rest := by
  simp only [tmxDriveChunks, hf]
  rw [if_pos hg]

/-- Driving the ten header lines from the initial state: no pair is
produced, so the whole template's `264 + |cs|` bytes accumulate and must fit
the buffer limit. -/
theorem drive_header (cs dl : String)
    (rest : List (List Char × List TmxEvent))
    (h264 : 264 + cs.length ≤ SENTENCE_BUFFER_SIZE) :
    tmxDriveChunks (_parse_locale cs) dl initTmxRunState 0
        (headerChunks cs ++ rest) =
      tmxDriveChunks (_parse_locale cs) dl
        ⟨⟨["body", "tmx", ""], true, false⟩, 9, 10, [], []⟩
        (264 + cs.length) rest := by
  have l3len : ((("<header srclang=\"" ++ cs ++ "\"\n") : String).data).length =
      19 + cs.length := by
    have hx : cs.data.length = cs.length := rfl
    rw [String.data_append, String.data_append, List.length_append,
      List.length_append,
      (by decide : ((("<header srclang=\"") : String).data).length = 17),
      (by decide : ((("\"\n") : String).data).length = 2)]
    simp only [hx]
    omega
  have e3 : endsWithChar
      ((("<header srclang=\"" ++ cs ++ "\"\n") : String).data) '\n' = true := by
    rw [String.data_append]
    exact endsWithChar_append _ _ _ (by decide) (by decide)
  have hinit : initTmxRunState = ⟨⟨[""], false, false⟩, 0, 0, [], []⟩ := rfl
  rw [hinit]
  simp only [headerChunks, List.cons_append]
  rw [tmxDriveChunks_cons_keep _ 40 (tmxFeedChunk_no_events _ _ _ _ _ _ _ _
      (by decide)) rfl (by decide)
      (le_trans (by omega) h264)]
  rw [tmxDriveChunks_cons_keep _ 60 (tmxFeedChunk_tmx_open _ _ _ _ _ _) rfl
      (by decide) (le_trans (by omega) h264)]
  rw [tmxDriveChunks_cons_keep _ (79 + cs.length)
      (tmxFeedChunk_no_events _ _ _ _ _ _ _ _ e3) rfl
      (by rw [l3len]; omega) (le_trans (by omega) h264)]
  rw [tmxDriveChunks_cons_keep _ (105 + cs.length)
      (tmxFeedChunk_no_events _ _ _ _ _ _ _ _ (by decide)) rfl
      (by
        rw [(by decide :
        ((("        adminlang=\"en-us\"\n") : String).data).length = 26)]
        omega)
      (le_trans (by omega) h264)]
  rw [tmxDriveChunks_cons_keep _ (129 + cs.length)
      (tmxFeedChunk_no_events _ _ _ _ _ _ _ _ (by decide)) rfl
      (by
        rw [(by decide :
        ((("        o-tmf=\"unknown\"\n") : String).data).length = 24)]
        omega)
      (le_trans (by omega) h264)]
  rw [tmxDriveChunks_cons_keep _ (156 + cs.length)
      (tmxFeedChunk_no_events _ _ _ _ _ _ _ _ (by decide)) rfl
      (by
        rw [(by decide :
        ((("        segtype=\"sentence\"\n") : String).data).length = 27)]
        omega)
      (le_trans (by omega) h264)]
  rw [tmxDriveChunks_cons_keep _ (185 + cs.length)
      (tmxFeedChunk_no_events _ _ _ _ _ _ _ _ (by decide)) rfl
      (by
        rw [(by decide :
        ((("        creationtool=\"Uplug\"\n") : String).data).length = 29)]
        omega)
      (le_trans (by omega) h264)]
  rw [tmxDriveChunks_cons_keep _ (223 + cs.length)
      (tmxFeedChunk_no_events _ _ _ _ _ _ _ _ (by decide)) rfl
      (by
        rw [(by decide :
        ((("        creationtoolversion=\"unknown\"\n")
            : String).data).length = 38)]
        omega)
      (le_trans (by omega) h264)]
  rw [tmxDriveChunks_cons_keep _ (255 + cs.length)
      (tmxFeedChunk_header_close _ _ _ _ _ _) rfl
      (by
        rw [(by decide :
        ((("        datatype=\"PlainText\" />\n") : String).data).length = 32)]
        omega)
      (le_trans (by omega) h264)]
  rw [tmxDriveChunks_cons_keep _ (264 + cs.length)
      (tmxFeedChunk_body_open _ _ _ _ _ _) rfl
      (by
        rw [(by decide : ((("  <body>\n") : String).data).length = 9)]
        omega)
      h264]
  norm_num

/-- Driving one exported `<tu>` block: three lines accumulate bytes, the
closing line yields the pair and resets the tally. -/
theorem drive_pair_block (cs cd s t : String)
    (hs : s ≠ "") (hts : str_strip s = s) (hd : t ≠ "") (htt : str_strip t = t)
    (hcs : _parse_locale cs ≠ "") (hcd : _parse_locale cd ≠ "")
    (hdiff : _parse_locale cs ≠ _parse_locale cd)
    (li ni : ℕ) (sk : List (ℕ × Option String × Option String × String))
    (ps : List (String × String)) (acc : ℕ)
    (rest : List (List Char × List TmxEvent))
    (hacc : acc + 91 + cs.length + cd.length + s.length + t.length ≤
      SENTENCE_BUFFER_SIZE) :
    tmxDriveChunks (_parse_locale cs) (_parse_locale cd)
        ⟨⟨["body", "tmx", ""], true, false⟩, li, ni, sk, ps⟩ acc
        (pairChunks cs cd s t ++ rest) =
      tmxDriveChunks (_parse_locale cs) (_parse_locale cd)
        ⟨⟨["body", "tmx", ""], true, false⟩, ni + 3, ni + 4, sk,
          ps ++ [(s, t)]⟩ 0 rest := by
  simp only [pairChunks, List.cons_append]
  rw [tmxDriveChunks_cons_keep _ (acc + 9)
      (tmxFeedChunk_tu_open _ _ _ _ _ _) rfl
      (by
        rw [(by decide : ((("    <tu>\n") : String).data).length = 9)])
      (le_trans (by omega) hacc)]
  rw [tmxDriveChunks_cons_keep _ (acc + 50 + cs.length + s.length)
      (tmxFeedChunk_tuv_line _ _ _ _ _ _ _ (tuvChunk_endsWith cs s)) rfl
      (by rw [tuvChunk_length]; omega)
      (le_trans (by omega) hacc)]
  rw [tmxDriveChunks_cons_keep _
      (acc + 91 + cs.length + s.length + cd.length + t.length)
      (tmxFeedChunk_tuv_line _ _ _ _ _ _ _ (tuvChunk_endsWith cd t)) rfl
      (by rw [tuvChunk_length]; omega)
      (le_trans (by omega) hacc)]
  rw [tmxDriveChunks_cons_yield _
      (tmxFeedChunk_tu_close cs cd s t hs hts hd htt hcs hcd hdiff _ _ _ _)
      (by simp)]
  norm_num

/-- Driving the two footer lines: no pair is produced; the tally must stay
within the limit until the stream ends. -/
theorem drive_footer (sl dl : String) (li ni : ℕ)
    (sk : List (ℕ × Option String × Option String × String))
    (ps : List (String × String)) (acc : ℕ)
    (hacc : acc + 16 ≤ SENTENCE_BUFFER_SIZE) :
    tmxDriveChunks sl dl ⟨⟨["body", "tmx", ""], true, false⟩, li, ni, sk, ps⟩
        acc footerChunks =
      .ok ⟨⟨[""], true, false⟩, ni + 1, ni + 1, sk, ps⟩ := by
  simp only [footerChunks]
  rw [tmxDriveChunks_cons_keep _ (acc + 10)
      (tmxFeedChunk_body_close _ _ _ _ _ _) rfl
      (by
        rw [(by decide : ((("  </body>\n") : String).data).length = 10)])
      (le_trans (by omega) hacc)]
  rw [tmxDriveChunks_cons_keep _ (acc + 16)
      (tmxFeedChunk_tmx_close _ _ _ _ _ _) rfl
      (by
        rw [(by decide : ((("</tmx>") : String).data).length = 6)])
      hacc]
  exact tmxDriveChunks_nil _ _ _ _

/-- Driving all exported `<tu>` blocks and the footer from the post-header
state: every pair is recovered in order, provided each block's bytes (plus
whatever the tally already holds) fit the buffer limit. -/
theorem drive_export_pairs (cs cd : String)
    (hcs : _parse_locale cs ≠ "") (hcd : _parse_locale cd ≠ "")
    (hdiff : _parse_locale cs ≠ _parse_locale cd) :
    ∀ (pairs : List (String × String)) (li ni : ℕ)
      (sk : List (ℕ × Option String × Option String × String))
      (ps : List (String × String)) (acc : ℕ),
      acc ≤ 264 + cs.length →
      2 * cs.length + 2 * cd.length + 360 ≤ SENTENCE_BUFFER_SIZE →
      (∀ p ∈ pairs, p.1 ≠ "" ∧ str_strip p.1 = p.1 ∧ p.2 ≠ "" ∧
        str_strip p.2 = p.2 ∧
        p.1.length + p.2.length + 2 * (cs.length + cd.length) + 360 ≤
          SENTENCE_BUFFER_SIZE) →
      ∃ li2 ni2,
        tmxDriveChunks (_parse_locale cs) (_parse_locale cd)
          ⟨⟨["body", "tmx", ""], true, false⟩, li, ni, sk, ps⟩ acc
          ((pairs.map fun p => pairChunks cs cd p.1 p.2).flatten ++
            footerChunks) =
          .ok ⟨⟨[""], true, false⟩, li2, ni2, sk, ps ++ pairs⟩
  | [], li, ni, sk, ps, acc, hacc, hsz0, hp => by
    refine ⟨ni + 1, ni + 1, ?_⟩
    simp only [List.map_nil, List.flatten_nil, List.nil_append,
      List.append_nil]
    exact drive_footer _ _ _ _ _ _ _
      (le_trans (by omega) hsz0)
  | (a, b) :: rest, li, ni, sk, ps, acc, hacc, hsz0, hp => by
    obtain ⟨ha1, ha2, ha3, ha4, ha5⟩ := hp (a, b) (List.mem_cons_self _ _)
    dsimp only at ha1 ha2 ha3 ha4 ha5
    obtain ⟨li2, ni2, hdr⟩ := drive_export_pairs cs cd hcs hcd hdiff rest
      (ni + 3) (ni + 4) sk (ps ++ [(a, b)]) 0 (by omega) hsz0
      (fun q hq => hp q (List.mem_cons_of_mem _ hq))
    refine ⟨li2, ni2, ?_⟩
    simp only [List.map_cons, List.flatten_cons, List.append_assoc]
    rw [drive_pair_block cs cd a b ha1 ha2 ha3 ha4 hcs hcd hdiff li ni sk ps
      acc _ (le_trans (by omega) ha5)]
    rw [hdr]
    simp [List.append_assoc]

/-- C8 as stated is false on the code at one input: the pair `(" a", "b")`
contains no tab and no XML-special character, yet the TMX leg of the round
trip returns `("a", "b")` — `_parse_tuv_element` strips leading/trailing
whitespace — so the original sequence is not reproduced. -/
theorem claim_C8_counterexample :
    tmxParseChunks "en" "zh" (tmxExportChunks "en" "zh" [(" a", "b")]) =
        .ok [("a", "b")] ∧
      [(" a", "b")] ≠ [("a", "b")] := by
  constructor
  · rfl
  · decide

/-- C8 (amended): for every finite sequence of phrase pairs whose texts
are non-empty, already whitespace-trimmed, and free of tabs, newlines,
carriage returns and XML-special characters, and small enough that every
batch of lines `_read_next` reads between two yielded pairs fits the 1 MiB
byte ceiling (`Exceeded buffer limit`), under configured source/target
codes with distinct non-empty locales, converting TSV to TMX and back (and
TMX to TSV and back) reproduces the original pair sequence exactly; the
TMX leg is driven over the exporter output's `readline` line chunks, which
concatenate to exactly the exporter's bytes.  (As stated the claim fails:
`_parse_tuv_element` strips leading/trailing whitespace, so the
tab/XML-special-free pair `(" a", "b")` comes back as `("a", "b")`; empty
texts likewise fail the `tu` content check.) -/
theorem claim_C8_round_trip (cs cd : String) (pairs : List (String × String))
    (hcs : _parse_locale cs ≠ "") (hcd : _parse_locale cd ≠ "")
    (hdiff : _parse_locale cs ≠ _parse_locale cd)
    (hsz0 : 2 * cs.length + 2 * cd.length + 360 ≤ SENTENCE_BUFFER_SIZE)
    (hp : ∀ p ∈ pairs, cleanText p.1 ∧ cleanText p.2 ∧
      p.1.length + p.2.length + 2 * (cs.length + cd.length) + 360 ≤
        SENTENCE_BUFFER_SIZE) :
    tsvParseAll (tsvExportStream (pairs.map fun p => (p.1.data, p.2.data))) =
        .ok (pairs.map fun p => (p.1.data, p.2.data)) ∧
      tmxParseChunks cs cd (tmxExportChunks cs cd pairs) = .ok pairs ∧
      ((tmxExportChunks cs cd pairs).map Prod.fst).flatten =
        (tmxExporterOutput cs cd pairs).data := by
  refine ⟨?_, ?_, tmxExportChunks_flatten cs cd pairs⟩
  · have hx : ∀ q ∈ (pairs.map fun p => (p.1.data, p.2.data)),
        '\t' ∉ q.1 ∧ '\n' ∉ q.1 ∧ '\t' ∉ q.2 ∧ '\n' ∉ q.2 ∧
          '\r' ∉ q.2 ∧ q.1.length + q.2.length + 2 < SENTENCE_BUFFER_SIZE := by
      intro q hq
      rw [List.mem_map] at hq
      obtain ⟨p, hpmem, rfl⟩ := hq
      obtain ⟨⟨-, -, h1c⟩, ⟨-, -, h2c⟩, hlen⟩ := hp p hpmem
      refine ⟨fun hmem => (h1c _ hmem).1 rfl, fun hmem => (h1c _ hmem).2.1 rfl,
        fun hmem => (h2c _ hmem).1 rfl, fun hmem => (h2c _ hmem).2.1 rfl,
        fun hmem => (h2c _ hmem).2.2.1 rfl, ?_⟩
      have h1 : p.1.data.length = p.1.length := rfl
      have h2 : p.2.data.length = p.2.length := rfl
      dsimp only
      simp only [h1, h2]
      exact lt_of_lt_of_le (by omega) hlen
    rw [tsvParseAll, tsvParseAllGo_export _ _ _ [] hx (by omega),
      List.nil_append]
  · rw [tmxParseChunks, tmxExportChunks, List.append_assoc]
    rw [drive_header cs (_parse_locale cd) _ (le_trans (by omega) hsz0)]
    obtain ⟨li2, ni2, hdr⟩ := drive_export_pairs cs cd hcs hcd hdiff pairs
      9 10 [] [] (264 + cs.length) le_rfl hsz0
      (fun q hq => ⟨(hp q hq).1.1, (hp q hq).1.2.1, (hp q hq).2.1.1,
        (hp q hq).2.1.2.1, (hp q hq).2.2⟩)
    rw [hdr]
    rfl

/-- Concrete instantiation of C8 (amended) at the single pair `("a", "b")`
with codes `en`/`zh`. -/
theorem claim_C8_round_trip_witness :
    tsvParseAll
        (tsvExportStream ([("a", "b")].map fun p =>
          (p.1.data, p.2.data))) =
        .ok ([("a", "b")].map fun p => (p.1.data, p.2.data)) ∧
      tmxParseChunks "en" "zh" (tmxExportChunks "en" "zh" [("a", "b")]) =
        .ok [("a", "b")] ∧
      ((tmxExportChunks "en" "zh" [("a", "b")]).map Prod.fst).flatten =
        (tmxExporterOutput "en" "zh" [("a", "b")]).data := by
  exact claim_C8_round_trip "en" "zh" [("a", "b")] (by decide) (by decide)
    (by decide) (by decide) (by decide)
end AutomlTranslation
